import Mathlib

/-!
Shallow embedding of the hexd row-generation and line-rendering engine
(src/src/lib.rs, src/src/options.rs, src/src/reader.rs).

Bytes are modelled as `Nat` (values 0..=255), `usize` as `Nat`, byte strings
as `List Nat`.  The stack-allocated string buffer of the renderer is modelled
as a list of appended chunks (one chunk per `push` / `extend_from_slice` call
of the source), so that both the produced text (the concatenation of the
chunks) and the overflow check of `StackBuffer::check_extension` (which
panics when `len + extend_by >= N`) can be stated faithfully.
-/

/-- options.rs: `enum LeadingZeroChar { Space, Zero, Underscore }`. -/
inductive LeadingZeroChar
  | Space
  | Zero
  | Underscore
deriving DecidableEq, Repr

/-- lib.rs: `impl From<LeadingZeroChar> for u8`. -/
def LeadingZeroChar.toByte : LeadingZeroChar → Nat
  | .Space => 32
  | .Underscore => 95
  | .Zero => 48

/-- options.rs: `enum Base { Hex, Decimal(LeadingZeroChar), Octal(LeadingZeroChar), Binary }`. -/
inductive Base
  | Hex
  | Decimal (lzc : LeadingZeroChar)
  | Octal (lzc : LeadingZeroChar)
  | Binary
deriving DecidableEq, Repr

/-- options.rs: `enum Spacing { None, Normal, Wide, UltraWide }`. -/
inductive Spacing
  | None
  | Normal
  | Wide
  | UltraWide
deriving DecidableEq, Repr

/-- options.rs: `Spacing::as_spaces`. -/
def Spacing.as_spaces : Spacing → List Nat
  | .None => []
  | .Normal => [32]
  | .Wide => [32, 32]
  | .UltraWide => [32, 32, 32, 32]

/-- options.rs: `enum GroupSize { Byte, Short, Int, Long, ULong }`. -/
inductive GroupSize
  | Byte
  | Short
  | Int
  | Long
  | ULong
deriving DecidableEq, Repr

/-- options.rs: `GroupSize::element_count`. -/
def GroupSize.element_count : GroupSize → Nat
  | .Byte => 1
  | .Short => 2
  | .Int => 4
  | .Long => 8
  | .ULong => 16

/-- options.rs: `enum Grouping { Ungrouped { .. }, Grouped { .. } }`. -/
inductive Grouping
  | Ungrouped (byte_count : Nat) (spacing : Spacing)
  | Grouped (group_size : GroupSize) (byte_spacing : Spacing)
      (num_groups : Nat) (group_spacing : Spacing)
deriving DecidableEq, Repr

/-- options.rs: `Grouping::elt_width`. -/
def Grouping.elt_width : Grouping → Nat
  | .Ungrouped byte_count _ => byte_count
  | .Grouped group_size _ num_groups _ => group_size.element_count * num_groups

/-- options.rs: `Grouping::spacing_for_index`. -/
def Grouping.spacing_for_index : Grouping → Nat → Spacing
  | .Ungrouped _ spacing, _ => spacing
  | .Grouped group_size byte_spacing _ group_spacing, index =>
    let elt_count := group_size.element_count
    if index % elt_count = elt_count - 1 then group_spacing else byte_spacing

/-- options.rs: `impl Default for Grouping` (Short groups, 8 of them). -/
def Grouping.default : Grouping :=
  .Grouped .Short .None 8 .Normal

/-- options.rs: `struct HexdRange { skip: usize, limit: Option<usize> }`. -/
structure HexdRange where
  skip : Nat
  limit : Option Nat
deriving DecidableEq, Repr

/-- options.rs: `HexdRange::length` (`limit.map(|lim| lim - skip)`); Rust
`usize` subtraction panics when `lim < skip`, the Nat subtraction truncates,
so the model is faithful only for well-formed ranges (`skip <= lim`). -/
def HexdRange.length (r : HexdRange) : Option Nat :=
  r.limit.map (fun lim => lim - r.skip)

/-- options.rs: `enum IndexOffset { Relative(usize), Absolute(usize) }`. -/
inductive IndexOffset
  | Relative (o : Nat)
  | Absolute (o : Nat)
deriving DecidableEq, Repr

/-- options.rs: `struct HexdOptions`. -/
structure HexdOptions where
  base : Base
  autoskip : Bool
  uppercase : Bool
  show_ascii : Bool
  show_index : Bool
  align : Bool
  grouping : Grouping
  print_range : HexdRange
  index_offset : IndexOffset
deriving DecidableEq, Repr

/-- options.rs: `HexdOptions::elt_width`. -/
def HexdOptions.elt_width (o : HexdOptions) : Nat :=
  o.grouping.elt_width

/-- options.rs: `impl Default for HexdOptions`. -/
def HexdOptions.default : HexdOptions :=
  { base := .Hex
    autoskip := true
    uppercase := true
    show_ascii := true
    show_index := true
    align := true
    grouping := Grouping.default
    print_range := { skip := 0, limit := none }
    index_offset := .Relative 0 }

/-- lib.rs: `UPPER_LUT`. -/
def UPPER_LUT : List Nat :=
  [48, 49, 50, 51, 52, 53, 54, 55, 56, 57, 65, 66, 67, 68, 69, 70]

/-- lib.rs: `LOWER_LUT`. -/
def LOWER_LUT : List Nat :=
  [48, 49, 50, 51, 52, 53, 54, 55, 56, 57, 97, 98, 99, 100, 101, 102]

/-- lib.rs: `u8::to_hex_upper` (`x[0] = UPPER_LUT[self >> 4]; x[1] = UPPER_LUT[self & 0xf]`). -/
def to_hex_upper (b : Nat) : List Nat :=
  [UPPER_LUT.getD (b >>> 4) 0, UPPER_LUT.getD (b &&& 0xf) 0]

/-- lib.rs: `u8::to_hex_lower`. -/
def to_hex_lower (b : Nat) : List Nat :=
  [LOWER_LUT.getD (b >>> 4) 0, LOWER_LUT.getD (b &&& 0xf) 0]

/-- lib.rs: `trunc_ceil_usize`. -/
def trunc_ceil_usize (n trunc : Nat) : Nat :=
  let rem := n / trunc
  match rem with
  | 0 => rem * trunc
  | _ => (rem + 1) * trunc

/-- lib.rs: `usize::hex_visual_width`, fuel-based so that it is structurally
recursive; fuel `u` suffices since the loop runs at most `u` times. -/
def hex_visual_width_aux : Nat → Nat → Nat
  | 0, _ => 0
  | fuel + 1, u => if u = 0 then 0 else hex_visual_width_aux fuel (u >>> 4) + 1

/-- lib.rs: `usize::hex_visual_width` (number of hex digits of `u`). -/
def hex_visual_width (u : Nat) : Nat :=
  hex_visual_width_aux u u

/-- lib.rs: `usize::to_be_bytes` for the 8-byte `usize` of the target. -/
def usize_to_be_bytes (v : Nat) : List Nat :=
  (List.range 8).map (fun i => v / 256 ^ (7 - i) % 256)

/-- lib.rs: `struct RowBuffer` (the `StackBuffer<4096>` is modelled by the
list of bytes actually read; its unwritten tail is all zeroes in the source,
so equality of `(buffer, len)` pairs coincides with list equality). -/
structure RowBuffer where
  buffer : List Nat
  length : Nat
  row_index : Nat
  elt_index : Nat
deriving DecidableEq, Repr

/-- lib.rs: `RowBuffer::is_right_aligned`. -/
def RowBuffer.is_right_aligned (r : RowBuffer) : Bool :=
  r.elt_index ≠ r.row_index

/-- Chunking of a list into runs of `g` elements (Rust `slice::chunks`),
fuel-based on the length of the list; `g = 0` is unreachable in the source
(`GroupSize::element_count` is at least 1). -/
def list_chunks_go (g : Nat) : Nat → List Nat → List (List Nat)
  | _, [] => []
  | 0, l => [l]
  | fuel + 1, l => l.take g :: list_chunks_go g fuel (l.drop g)

/-- Rust `slice::chunks(g)` on byte slices. -/
def list_chunks (g : Nat) (l : List Nat) : List (List Nat) :=
  list_chunks_go g l.length l

/-- lib.rs: `ElisionMatch::try_match`.  The match arm guard
`_ if buffer.len != options.elt_width()` is the leading `if`; the saved
`ElisionMatch` is modelled by its buffer contents.  In the `Grouped` arm the
source takes `s = &buffer.as_slice()[..group_size]` and checks
`s.chunks(group_size).all(|chunk| chunk == s)` — it chunks `s` itself, a
slice of exactly `group_size` bytes, so the check is one chunk compared to
itself and every full-width row qualifies. -/
def ElisionMatch.try_match (row : RowBuffer) (options : HexdOptions) : Option (List Nat) :=
  if row.buffer.length ≠ options.elt_width then none
  else
    match options.grouping with
    | .Ungrouped _ _ =>
      let sc := row.buffer.getD 0 0
      if row.buffer.all (fun b => b = sc) then some row.buffer else none
    | .Grouped group_size _ _ _ =>
      let gsz := group_size.element_count
      let s := row.buffer.take gsz
      if (list_chunks gsz s).all (fun chunk => chunk = s) then
        some row.buffer
      else none

/-- lib.rs: `ElisionMatch::matches`. -/
def ElisionMatch.matches (em : List Nat) (row : RowBuffer) (options : HexdOptions) : Bool :=
  if row.buffer.length = options.elt_width then em == row.buffer else false

/-- reader.rs: `ByteSliceReader::next_n`: copies into the caller's buffer of
size `len` as many bytes as are available starting at `index`; returns the
bytes read and the new reader index. -/
def ByteSliceReader.next_n (slice : List Nat) (index len : Nat) : List Nat × Nat :=
  if slice.length ≤ index then ([], index)
  else
    let e := min (index + len) slice.length - index
    ((slice.drop index).take e, index + e)

/-- lib.rs: `enum HexdumpLineIteratorState`. -/
inductive HexdumpLineIteratorState
  | NotStarted
  | InProgress
  | Completed
deriving DecidableEq, Repr

/-- lib.rs: `struct HexdumpLineIterator` over a `ByteSliceReader` whose slice
is passed separately; `reader_index` is the `ByteSliceReader::index` field. -/
structure HexdumpLineIterator where
  reader_index : Nat
  index : Nat
  state : HexdumpLineIteratorState
  elision_match : Option (List Nat)
deriving DecidableEq, Repr

/-- lib.rs: the fresh iterator built by `HexdumpLineIterator::new`. -/
def HexdumpLineIterator.new : HexdumpLineIterator :=
  { reader_index := 0, index := 0, state := .NotStarted, elision_match := none }

/-- lib.rs: `HexdumpLineIterator::calculate_row_index`. -/
def calculate_row_index (options : HexdOptions) (index : Nat) : Nat :=
  if !options.align then index
  else index / options.elt_width * options.elt_width

/-- lib.rs: `HexdumpLineIterator::read_into_buffer` (the
`reader.next_n(..).unwrap()` cannot fail for a `ByteSliceReader`). -/
def read_into_buffer (options : HexdOptions) (slice : List Nat) (len : Nat)
    (it : HexdumpLineIterator) : RowBuffer × HexdumpLineIterator :=
  let r := ByteSliceReader.next_n slice it.reader_index len
  let o : RowBuffer :=
    { buffer := r.1
      length := r.1.length
      row_index := calculate_row_index options it.index
      elt_index := it.index }
  (o, { it with
          reader_index := r.2
          index := it.index + r.1.length
          state := .InProgress })

/-- lib.rs: `enum LineIteratorResult`. -/
inductive LineIteratorResult
  | Elided (r : RowBuffer)
  | Row (r : RowBuffer)
deriving DecidableEq, Repr

/-- The row carried by a `LineIteratorResult`. -/
def LineIteratorResult.row : LineIteratorResult → RowBuffer
  | .Elided r => r
  | .Row r => r

/-- lib.rs: the `read_len` computation at the head of
`<HexdumpLineIterator as Iterator>::next` (`not_started` is
`self.state == NotStarted`, tested before the `InProgress` assignment). -/
def next_read_len (options : HexdOptions) (not_started : Bool) (index : Nat) : Nat :=
  let limit :=
    match options.print_range.limit with
    | some limit => if index < limit then limit - index else 0
    | none => options.elt_width
  let ew := min options.elt_width limit
  if not_started ∧ options.align then
    match options.print_range.length with
    | some len => if len < options.elt_width then len else ew - index % ew
    | none => ew - index % ew
  else ew

/-- lib.rs: the tail of `next` after `read_into_buffer`: the autoskip /
elision handling and the final emptiness check. -/
def next_after_read (options : HexdOptions) (rowbuffer : RowBuffer)
    (it : HexdumpLineIterator) : Option LineIteratorResult × HexdumpLineIterator :=
  if options.autoskip then
    match it.elision_match with
    | some em =>
      if ElisionMatch.matches em rowbuffer options then
        (some (.Elided rowbuffer), it)
      else
        let it := { it with elision_match := ElisionMatch.try_match rowbuffer options }
        if 0 < rowbuffer.length then (some (.Row rowbuffer), it)
        else (none, { it with state := .Completed })
    | none =>
      let it := { it with elision_match := ElisionMatch.try_match rowbuffer options }
      if 0 < rowbuffer.length then (some (.Row rowbuffer), it)
      else (none, { it with state := .Completed })
  else
    if 0 < rowbuffer.length then (some (.Row rowbuffer), it)
    else (none, { it with state := .Completed })

/-- lib.rs: `<HexdumpLineIterator as Iterator>::next`.  Returns the yielded
item (if any) together with the mutated iterator, since the source mutates
`self` even on the `None` path (skip, state transition, elision reset). -/
def HexdumpLineIterator.next (options : HexdOptions) (slice : List Nat)
    (it : HexdumpLineIterator) : Option LineIteratorResult × HexdumpLineIterator :=
  match it.state with
  | .Completed => (none, it)
  | _ =>
    let it :=
      if it.state = .NotStarted ∧ 0 < options.print_range.skip then
        { it with
            reader_index := it.reader_index + options.print_range.skip
            index := options.print_range.skip }
      else it
    let read_len := next_read_len options (it.state = .NotStarted) it.index
    let r := read_into_buffer options slice read_len { it with state := .InProgress }
    next_after_read options r.1 r.2

/-- Driving the iterator to exhaustion, fuel-based.  Each yielded row consumes
at least one byte of the slice, so fuel `slice.length + 1` reaches the `None`
step (except in the degenerate `elt_width = 0` configurations, on which the
Rust loop diverges). -/
def HexdumpLineIterator.run (options : HexdOptions) (slice : List Nat) :
    Nat → HexdumpLineIterator → List LineIteratorResult × HexdumpLineIterator
  | 0, it => ([], it)
  | fuel + 1, it =>
    match HexdumpLineIterator.next options slice it with
    | (none, it') => ([], it')
    | (some r, it') =>
      let rest := HexdumpLineIterator.run options slice fuel it'
      (r :: rest.1, rest.2)

/-- lib.rs: `HexdumpLineWriter::u8_to_hex`. -/
def u8_to_hex (options : HexdOptions) (b : Nat) : List Nat :=
  if options.uppercase then to_hex_upper b else to_hex_lower b

/-- lib.rs: `HexdumpLineWriter::bchar_for_u8`. -/
def bchar_for_u8 (options : HexdOptions) (b : Nat) : Nat :=
  if options.uppercase then UPPER_LUT.getD b 0 else LOWER_LUT.getD b 0

/-- lib.rs: `HexdumpLineWriter::is_printable_char`
(`is_ascii_alphanumeric || is_ascii_punctuation || ch == ' '`). -/
def is_printable_char (b : Nat) : Bool :=
  decide ((48 ≤ b ∧ b ≤ 57) ∨ (65 ≤ b ∧ b ≤ 90) ∨ (97 ≤ b ∧ b ≤ 122) ∨
    (33 ≤ b ∧ b ≤ 47) ∨ (58 ≤ b ∧ b ≤ 64) ∨ (91 ≤ b ∧ b ≤ 96) ∨
    (123 ≤ b ∧ b ≤ 126) ∨ b = 32)

/-- lib.rs: the `v_index` computation at the head of
`HexdumpLineWriter::write_row_index`. -/
def v_index (index_offset : IndexOffset) (skip row_index : Nat) : Nat :=
  match index_offset with
  | .Absolute o => row_index - min row_index skip + o
  | .Relative o => row_index + o

/-- lib.rs: `HexdumpLineWriter::write_row_index`, as the list of chunks
appended to `str_buffer` (one chunk per `push`/`extend_from_slice`); `hint`
is `reader.total_byte_hint()`, which is `Some(slice.len())` for a
`ByteSliceReader`. -/
def write_row_index (options : HexdOptions) (hint : Option Nat) (row_index : Nat) :
    List (List Nat) :=
  let v := v_index options.index_offset options.print_range.skip row_index
  let bytes := usize_to_be_bytes v
  let bl := 8
  let slice :=
    match hint with
    | some h0 =>
      let h1 :=
        match options.index_offset with
        | .Absolute a => a + h0
        | .Relative r => options.print_range.skip + r + h0
      let h2 := (hex_visual_width h1 + 1) / 2
      let h3 := max h2 4
      bytes.drop (bl - h3)
    | none =>
      bytes.drop (bl - max 4 (trunc_ceil_usize (hex_visual_width v / 2) 2))
  slice.flatMap (fun b => (u8_to_hex options b).map (fun c => [c])) ++ [[58, 32]]

/-- lib.rs: `HexdumpLineWriter::write_elision` (`b"*"`). -/
def write_elision : List (List Nat) :=
  [[42]]

/-- lib.rs: `HexdumpLineWriter::write_byte`, one chunk per
`extend_from_slice`. -/
def write_byte (options : HexdOptions) (b : Option Nat) : List (List Nat) :=
  match options.base, b with
  | .Binary, some b =>
    [[bchar_for_u8 options (b >>> 7 &&& 1),
      bchar_for_u8 options (b >>> 6 &&& 1),
      bchar_for_u8 options (b >>> 5 &&& 1),
      bchar_for_u8 options (b >>> 4 &&& 1),
      bchar_for_u8 options (b >>> 3 &&& 1),
      bchar_for_u8 options (b >>> 2 &&& 1),
      bchar_for_u8 options (b >>> 1 &&& 1),
      bchar_for_u8 options (b >>> 0 &&& 1)]]
  | .Binary, none => [[32, 32, 32, 32, 32, 32, 32, 32]]
  | .Octal lzc, some b =>
    let lead_char := lzc.toByte
    let c0 := b >>> 6 &&& 0x7
    let c1 := b >>> 3 &&& 0x7
    let c2 := b >>> 0 &&& 0x7
    [[if c0 = 0 ∧ c1 ≠ 0 then lead_char else bchar_for_u8 options c0,
      if c0 = 0 ∧ c1 = 0 ∧ c2 ≠ 0 then lead_char else bchar_for_u8 options c1,
      bchar_for_u8 options c2]]
  | .Octal _, none => [[32, 32, 32]]
  | .Decimal lzc, some b =>
    let lead_char := lzc.toByte
    let c0 := b / 100 % 10
    let c1 := b / 10 % 10
    let c2 := b / 1 % 10
    [[if c0 = 0 then lead_char else bchar_for_u8 options c0,
      if c0 = 0 ∧ c1 = 0 ∧ c2 ≠ 0 then lead_char else bchar_for_u8 options c1,
      bchar_for_u8 options c2]]
  | .Decimal _, none => [[32, 32, 32]]
  | .Hex, some b =>
    [[bchar_for_u8 options (b >>> 4 &&& 0xf),
      bchar_for_u8 options (b >>> 0 &&& 0xf)]]
  | .Hex, none => [[32, 32]]

/-- lib.rs: `HexdumpLineWriter::read_row_byte_aligned`. -/
def read_row_byte_aligned (options : HexdOptions) (row : RowBuffer) (i : Nat) :
    Option Nat :=
  let ee := row.elt_index % options.elt_width
  if options.align ∧ row.is_right_aligned then
    if i < ee ∨ row.buffer.length + ee ≤ i then none
    else some (row.buffer.getD (i - ee) 0)
  else
    if i < row.buffer.length then some (row.buffer.getD i 0) else none

/-- lib.rs: `HexdumpLineWriter::write_row_bytes`. -/
def write_row_bytes (options : HexdOptions) (row : RowBuffer) : List (List Nat) :=
  ((List.range options.elt_width).flatMap (fun i =>
    write_byte options (read_row_byte_aligned options row i) ++
      [(options.grouping.spacing_for_index i).as_spaces])) ++
  (if options.grouping.spacing_for_index (options.elt_width - 1) = Spacing.None then
    [[32]]
  else [])

/-- lib.rs: `HexdumpLineWriter::write_row_ascii`. -/
def write_row_ascii (options : HexdOptions) (row : RowBuffer) : List (List Nat) :=
  [[124]] ++
  (List.range options.elt_width).map (fun i =>
    let b := (read_row_byte_aligned options row i).getD 32
    [if is_printable_char b then b else 46]) ++
  [[124]]

/-- The chunk sequence a `LineIteratorResult::Row` sends through
`write_row_index`/`write_row_bytes`/`write_row_ascii` (with the row index
passed explicitly, since elided representatives are re-indexed). -/
def hexdump_line_chunks (options : HexdOptions) (hint : Option Nat)
    (row_index : Nat) (row : RowBuffer) : List (List Nat) :=
  write_row_index options hint row_index ++ write_row_bytes options row ++
    write_row_ascii options row

/-- The bytes of one finished output line: the chunk contents followed by the
newline that `flush_line` pushes. -/
def hexdump_line (options : HexdOptions) (hint : Option Nat)
    (row_index : Nat) (row : RowBuffer) : List Nat :=
  (hexdump_line_chunks options hint row_index row).flatten ++ [10]

/-- lib.rs: `struct HexdumpLineWriter` (writer part): the lines handed to
`WriteHexdump::write_line` so far, the pending elided row, and the contents
of the 256-byte `str_buffer`. -/
structure HexdumpLineWriter where
  out : List (List Nat)
  elided_row : Option (RowBuffer × Nat)
  str_buffer : List Nat
deriving DecidableEq, Repr

/-- The fresh writer of `HexdumpLineWriter::new`. -/
def HexdumpLineWriter.new : HexdumpLineWriter :=
  { out := [], elided_row := none, str_buffer := [] }

/-- Appending a chunk sequence to `str_buffer`. -/
def HexdumpLineWriter.append (w : HexdumpLineWriter) (cs : List (List Nat)) :
    HexdumpLineWriter :=
  { w with str_buffer := w.str_buffer ++ cs.flatten }

/-- lib.rs: `HexdumpLineWriter::flush_line`: push `'\n'` if the buffer is
nonempty, hand the buffer to `write_line` if nonempty, clear the buffer.
(The `FlushMode` bookkeeping only calls the sink's `flush`, which does not
write text, and is omitted.) -/
def flush_line (w : HexdumpLineWriter) : HexdumpLineWriter :=
  let buf := if 0 < w.str_buffer.length then w.str_buffer ++ [10] else w.str_buffer
  { out := if 0 < buf.length then w.out ++ [buf] else w.out
    elided_row := w.elided_row
    str_buffer := [] }

/-- lib.rs: the `write_row_index`/`write_row_bytes`/`write_row_ascii` triple
issued for one rendered row in `do_hexdump_internal`. -/
def hexdump_write_row (options : HexdOptions) (hint : Option Nat)
    (row_index : Nat) (row : RowBuffer) (w : HexdumpLineWriter) : HexdumpLineWriter :=
  w.append (hexdump_line_chunks options hint row_index row)

/-- lib.rs: the loop body of `HexdumpLineWriter::do_hexdump_internal` for one
iterator item (without the trailing `flush_line`). -/
def writer_step (options : HexdOptions) (hint : Option Nat) (i : Nat)
    (r : LineIteratorResult) (w : HexdumpLineWriter) : HexdumpLineWriter :=
  match r with
  | .Row row =>
    let w :=
      match w.elided_row with
      | some p =>
        let w := if 1 < i - p.2 then flush_line (w.append write_elision) else w
        flush_line
          (hexdump_write_row options hint (row.row_index - options.elt_width) p.1 w)
      | none => w
    let w := { w with elided_row := none }
    hexdump_write_row options hint row.row_index row w
  | .Elided row =>
    match w.elided_row with
    | none => { w with elided_row := some (row, i) }
    | some _ => w

/-- lib.rs: the `while let` loop of `do_hexdump_internal`: each iteration
processes one item and then calls `flush_line`, incrementing `i`. -/
def writer_loop (options : HexdOptions) (hint : Option Nat) :
    List LineIteratorResult → Nat → HexdumpLineWriter → HexdumpLineWriter
  | [], _, w => w
  | r :: rs, i, w =>
    writer_loop options hint rs (i + 1) (flush_line (writer_step options hint i r w))

/-- lib.rs: the tail of `do_hexdump_internal` after the loop: emit the pending
elided run using the iterator's final `index`. -/
def writer_finish (options : HexdOptions) (hint : Option Nat)
    (final_index i : Nat) (w : HexdumpLineWriter) : HexdumpLineWriter :=
  match w.elided_row with
  | some p =>
    let w := if 1 < i - p.2 then flush_line (w.append write_elision) else w
    let row_index := final_index - options.elt_width
    flush_line (hexdump_write_row options hint row_index p.1 w)
  | none => w

/-- lib.rs: `HexdumpLineWriter::do_hexdump` over a `ByteSliceReader` on
`slice`, with a string-like sink: the list of lines passed to `write_line`.
The sink's final output is their concatenation. -/
def do_hexdump (options : HexdOptions) (slice : List Nat) : List (List Nat) :=
  let r := HexdumpLineIterator.run options slice (slice.length + 1)
    HexdumpLineIterator.new
  let w := writer_loop options (some slice.length) r.1 0 HexdumpLineWriter.new
  (writer_finish options (some slice.length) r.2.index r.1.length w).out

/-- The string produced by `dump_to::<String>()`: the concatenation of the
written lines, as bytes. -/
def dump_to_string (options : HexdOptions) (slice : List Nat) : List Nat :=
  (do_hexdump options slice).flatten

/-- lib.rs: `StackBuffer::check_extension` for the 256-byte `str_buffer`:
`if self.len + extend_by >= N { panic!("Stack-based buffer overflow") }`. -/
def check_extension (len extend_by : Nat) : Bool :=
  decide (256 ≤ len + extend_by)

/-- Replaying a chunk sequence against the checked 256-byte buffer: every
`push`/`extend_from_slice` first runs `check_extension`; `none` models the
panic, `some len` the final buffer length. -/
def run_checked : List (List Nat) → Nat → Option Nat
  | [], len => some len
  | c :: cs, len =>
    if check_extension len c.length then none else run_checked cs (len + c.length)

/-- The chunk operations of `flush_line` for a buffer holding the given
chunks: the `'\n'` push happens only when the buffer is nonempty. -/
def flush_ops (cs : List (List Nat)) : List (List Nat) :=
  if 0 < cs.flatten.length then cs ++ [[10]] else cs

/-- C5 model: a byte source whose `next_n` fails (returns `Err`) as soon as
the read position has reached `fail_at`, and otherwise serves bytes from
`slice` like `ByteSliceReader`; `skip_n` just advances the position. -/
def FailingReader.next_n (slice : List Nat) (fail_at index len : Nat) :
    Option (List Nat × Nat) :=
  if fail_at ≤ index then none else some (ByteSliceReader.next_n slice index len)

/-- lib.rs: `read_into_buffer` over the failing source: the
`self.reader.next_n(..).unwrap()` panics (modelled by `none`) when the read
fails. -/
def read_into_buffer_f (options : HexdOptions) (slice : List Nat)
    (fail_at len : Nat) (it : HexdumpLineIterator) :
    Option (RowBuffer × HexdumpLineIterator) :=
  match FailingReader.next_n slice fail_at it.reader_index len with
  | none => none
  | some r =>
    some ({ buffer := r.1
            length := r.1.length
            row_index := calculate_row_index options it.index
            elt_index := it.index },
          { it with
              reader_index := r.2
              index := it.index + r.1.length
              state := .InProgress })

/-- lib.rs: `<HexdumpLineIterator as Iterator>::next` over the failing
source; the outer `none` is the propagated panic of the unwrap. -/
def HexdumpLineIterator.next_f (options : HexdOptions) (slice : List Nat)
    (fail_at : Nat) (it : HexdumpLineIterator) :
    Option (Option LineIteratorResult × HexdumpLineIterator) :=
  match it.state with
  | .Completed => some (none, it)
  | _ =>
    let it :=
      if it.state = .NotStarted ∧ 0 < options.print_range.skip then
        { it with
            reader_index := it.reader_index + options.print_range.skip
            index := options.print_range.skip }
      else it
    let read_len := next_read_len options (it.state = .NotStarted) it.index
    match read_into_buffer_f options slice fail_at read_len { it with state := .InProgress } with
    | none => none
    | some r => some (next_after_read options r.1 r.2)

/-- lib.rs: `do_hexdump_internal` over the failing source, interleaving the
iterator with the line writer as in the source's `while let` loop.  The
result is the list of lines already handed to the sink together with a flag
that is `true` when the dump aborted by panicking inside a read. -/
def do_hexdump_internal_f (options : HexdOptions) (slice : List Nat)
    (fail_at : Nat) (hint : Option Nat) :
    Nat → Nat → HexdumpLineIterator → HexdumpLineWriter → List (List Nat) × Bool
  | 0, _, _, w => (w.out, false)
  | fuel + 1, i, it, w =>
    match HexdumpLineIterator.next_f options slice fail_at it with
    | none => (w.out, true)
    | some (none, it') => ((writer_finish options hint it'.index i w).out, false)
    | some (some r, it') =>
      do_hexdump_internal_f options slice fail_at hint fuel (i + 1) it'
        (flush_line (writer_step options hint i r w))

/-- `do_hexdump` over the failing source. -/
def do_hexdump_f (options : HexdOptions) (slice : List Nat) (fail_at : Nat) :
    List (List Nat) × Bool :=
  do_hexdump_internal_f options slice fail_at (some slice.length)
    (slice.length + 1) 0 HexdumpLineIterator.new HexdumpLineWriter.new

/-! ## Helper lemmas -/

/-- A row yielded by `run` with positive fuel comes from a `some` step of
`next`. -/
theorem run_cons_inv (options : HexdOptions) (slice : List Nat) (fuel : Nat)
    (it : HexdumpLineIterator) (res : LineIteratorResult) (rest : List LineIteratorResult)
    (h : (HexdumpLineIterator.run options slice (fuel + 1) it).1 = res :: rest) :
    (HexdumpLineIterator.next options slice it).1 = some res := by
  rw [HexdumpLineIterator.run] at h
  rcases hn : HexdumpLineIterator.next options slice it with ⟨r, it'⟩
  rw [hn] at h
  cases r with
  | none => simp at h
  | some r0 => simp at h; simp [h.1]

/-- A `some` result of the post-read processing always carries the row that
was just read. -/
theorem next_after_read_row (options : HexdOptions) (rowbuffer : RowBuffer)
    (it : HexdumpLineIterator) (res : LineIteratorResult)
    (h : (next_after_read options rowbuffer it).1 = some res) : res.row = rowbuffer := by
  unfold next_after_read at h
  repeat' split at h
  all_goals simp at h
  all_goals simp [← h, LineIteratorResult.row]

/-- The first item yielded by a fresh iterator carries the row index computed
from the sub-range's skip. -/
theorem first_row_index (options : HexdOptions) (slice : List Nat)
    (res : LineIteratorResult)
    (h : (HexdumpLineIterator.next options slice HexdumpLineIterator.new).1 = some res) :
    res.row.row_index = calculate_row_index options options.print_range.skip := by
  simp only [HexdumpLineIterator.next, HexdumpLineIterator.new, read_into_buffer] at h
  by_cases hs : 0 < options.print_range.skip
  · simp only [hs, true_and, and_true, if_true, if_pos] at h
    simp [next_after_read_row options _ _ res h]
  · have hs0 : options.print_range.skip = 0 := by omega
    rw [hs0]
    simp only [hs0] at h
    simp at h
    simp [next_after_read_row options _ _ res h]

/-- `calculate_row_index` never exceeds the read position. -/
theorem calculate_row_index_le (options : HexdOptions) (n : Nat) :
    calculate_row_index options n ≤ n := by
  unfold calculate_row_index
  split
  · exact le_rfl
  · exact Nat.div_mul_le_self _ _

/-- The post-read processing yields nothing for an empty row when no elision
candidate is pending. -/
theorem next_after_read_empty (options : HexdOptions) (rowbuffer : RowBuffer)
    (it : HexdumpLineIterator) (hlen : rowbuffer.length = 0)
    (he : it.elision_match = none) :
    (next_after_read options rowbuffer it).1 = none := by
  simp [next_after_read, he, hlen]
  split <;> rfl

/-- A fresh iterator over a slice entirely before the skip position yields
nothing at its first step. -/
theorem next_skip_past_end (options : HexdOptions) (slice : List Nat)
    (hskip : slice.length ≤ options.print_range.skip) :
    (HexdumpLineIterator.next options slice HexdumpLineIterator.new).1 = none := by
  simp only [HexdumpLineIterator.next, HexdumpLineIterator.new, read_into_buffer,
    ByteSliceReader.next_n]
  rcases Nat.eq_zero_or_pos options.print_range.skip with h0 | h0
  · have hL : slice.length ≤ 0 := h0 ▸ hskip
    simp [h0, Nat.le_zero.mp hL]
    exact next_after_read_empty _ _ _ rfl rfl
  · simp [h0, hskip]
    exact next_after_read_empty _ _ _ rfl rfl

/-! ## Claims -/

/-- Spec 4.1: the fixed byte-field column width of each base (hexadecimal 2,
decimal 3, octal 3, binary 8). -/
def base_field_width : Base → Nat
  | .Hex => 2
  | .Decimal _ => 3
  | .Octal _ => 3
  | .Binary => 8

/-- C6: for every byte value and every leading-character configuration, the
byte-field encoding of one column has the fixed width determined by the base
(hex 2, decimal 3, octal 3, binary 8), and encoding an absent byte yields an
all-blank placeholder of exactly that width. -/
theorem c6_byte_encoding_fixed_width (options : HexdOptions) (b : Nat) :
    (write_byte options (some b)).flatten.length = base_field_width options.base ∧
    write_byte options none = [List.replicate (base_field_width options.base) 32] := by
  constructor
  · cases h : options.base <;> simp [write_byte, base_field_width, h]
  · cases h : options.base <;> simp [write_byte, base_field_width, h, List.replicate]

/-- C8 (code bug): with `show_ascii := false` and `show_index := false` the
renderer still emits the `|…|` ASCII panel and the leading index: on 32 zero
bytes the output equals the output with both toggles on, its text contains
`'|'` (124), and it starts with the index field `"00000000: "`. -/
theorem c8_show_toggles_ignored :
    do_hexdump { HexdOptions.default with show_ascii := false, show_index := false }
        (List.replicate 32 0) =
      do_hexdump HexdOptions.default (List.replicate 32 0) ∧
    124 ∈ (do_hexdump { HexdOptions.default with show_ascii := false, show_index := false }
        (List.replicate 32 0)).flatten ∧
    (do_hexdump { HexdOptions.default with show_ascii := false, show_index := false }
        (List.replicate 32 0)).flatten.take 10 = [48, 48, 48, 48, 48, 48, 48, 48, 58, 32] := by
  decide

/-- C9: the printed index is `o + (r - min r s)` in `Absolute(o)` mode and
`r + o` in `Relative(o)` mode, and the first yielded row of any dump is
numbered exactly `o` in `Absolute` mode, whatever the skip. -/
theorem c9_index_offset_semantics (o s r : Nat) (options : HexdOptions) (slice : List Nat) :
    v_index (.Absolute o) s r = o + (r - min r s) ∧
    v_index (.Relative o) s r = r + o ∧
    (∀ res rest,
      (HexdumpLineIterator.run options slice (slice.length + 1) HexdumpLineIterator.new).1
          = res :: rest →
      v_index (.Absolute o) options.print_range.skip res.row.row_index = o) := by
  refine ⟨by simp [v_index, Nat.add_comm], by simp [v_index], ?_⟩
  intro res rest h
  have h1 := run_cons_inv options slice _ _ res rest h
  have h2 := first_row_index options slice res h1
  have h3 : res.row.row_index ≤ options.print_range.skip :=
    h2 ▸ calculate_row_index_le options options.print_range.skip
  simp [v_index, Nat.min_eq_left h3]

/-- The options used to witness C9: 4-byte ungrouped rows, skip 6. -/
def c9_options : HexdOptions :=
  { HexdOptions.default with grouping := .Ungrouped 4 .Normal, print_range := ⟨6, none⟩ }

/-- C9 witness: a dump skipping 6 bytes of a 10-byte stream with 4-byte rows
and absolute offset 7 numbers its first row exactly 7. -/
theorem c9_index_offset_semantics_w :
    v_index (.Absolute 7) c9_options.print_range.skip
      (LineIteratorResult.row
        (.Row { buffer := [0, 0], length := 2, row_index := 4, elt_index := 6 })).row_index
      = 7 :=
  (c9_index_offset_semantics 7 6 3 c9_options (List.replicate 10 0)).2.2
    (.Row { buffer := [0, 0], length := 2, row_index := 4, elt_index := 6 })
    [.Row { buffer := [0, 0], length := 2, row_index := 8, elt_index := 8 }]
    (by decide)

/-- C10: a dump whose sub-range skip is at or past the end of the stream (in
particular a dump of an empty stream) writes no lines at all, so the
string-sink dump returns the empty string.  The well-formedness hypothesis on
the limit mirrors the source, where `HexdRange::length` underflows (panics)
when `limit < skip`. -/
theorem c10_empty_dump (options : HexdOptions) (slice : List Nat)
    (hskip : slice.length ≤ options.print_range.skip)
    (_hwf : ∀ l, options.print_range.limit = some l → options.print_range.skip ≤ l) :
    do_hexdump options slice = [] ∧ dump_to_string options slice = [] := by
  have hnext := next_skip_past_end options slice hskip
  have hrun : (HexdumpLineIterator.run options slice (slice.length + 1)
      HexdumpLineIterator.new).1 = [] := by
    rw [HexdumpLineIterator.run]
    rcases h : HexdumpLineIterator.next options slice HexdumpLineIterator.new with ⟨r, it'⟩
    rw [h] at hnext
    subst hnext
    simp
  have h1 : do_hexdump options slice = [] := by
    rw [do_hexdump]
    rcases h : HexdumpLineIterator.run options slice (slice.length + 1)
        HexdumpLineIterator.new with ⟨rs, itF⟩
    rw [h] at hrun
    subst hrun
    simp [writer_loop, writer_finish, HexdumpLineWriter.new]
  exact ⟨h1, by rw [dump_to_string, h1]; rfl⟩

/-- C10 witness: the default dump of the empty stream is empty. -/
theorem c10_empty_dump_w :
    do_hexdump HexdOptions.default [] = [] ∧ dump_to_string HexdOptions.default [] = [] :=
  c10_empty_dump HexdOptions.default [] (by decide) (fun l h => nomatch h)

/-- C5 counterexample: with a byte source whose very first read fails, the
dump of `[0,0,0,0]` under default options panics on the `unwrap` inside
`read_into_buffer` (flag `true`), with no lines written and no error value
returned to the caller — the read error is not propagated as a return
value. -/
theorem c5_read_failure_counterexample :
    do_hexdump_f HexdOptions.default [0, 0, 0, 0] 0 = ([], true) := by decide

/-- Flattening a list of singleton chunks is the list of their elements. -/
theorem flatten_map_singleton {α β : Type} (l : List α) (g : α → β) :
    (l.map (fun a => [g a])).flatten = l.map g := by
  induction l with
  | nil => rfl
  | cons a as ih => simp [ih]

/-- The options of the C7 counterexample: 4-byte ungrouped rows. -/
def c7_options : HexdOptions :=
  { HexdOptions.default with grouping := .Ungrouped 4 .Normal }

/-- The row of the C7 counterexample: a single byte `'A'` read into a 4-byte
row, so columns 1–3 are absent. -/
def c7_row : RowBuffer :=
  { buffer := [65], length := 1, row_index := 0, elt_index := 0 }

/-- C7 counterexample: column 1 of the row is absent, yet the rendered ASCII
field is `|A   |` — the absent column renders as a space (32), not as `'.'`
(46) as the claim states. -/
theorem c7_absent_column_counterexample :
    read_row_byte_aligned c7_options c7_row 1 = none ∧
    (write_row_ascii c7_options c7_row).flatten = [124, 65, 32, 32, 32, 124] ∧
    (write_row_ascii c7_options c7_row).flatten.getD 2 0 ≠ 46 := by decide

/-- C7 (amended): the one-character ASCII representation of column `i` is the
byte itself when the byte is present and printable (ASCII alphanumeric,
punctuation, or space), `'.'` (46) when the byte is present but not
printable, and a space (32) when the byte is absent. -/
theorem c7_ascii_cell (options : HexdOptions) (row : RowBuffer) (i : Nat)
    (h : i < options.elt_width) :
    (write_row_ascii options row).flatten.getD (i + 1) 0 =
      (match read_row_byte_aligned options row i with
       | some b => if is_printable_char b then b else 46
       | none => 32) := by
  rw [write_row_ascii]
  simp only [List.flatten_append, List.flatten_cons, List.flatten_nil]
  rw [flatten_map_singleton]
  rw [List.getD_eq_getElem?_getD]
  simp only [List.cons_append, List.getElem?_cons_succ, List.nil_append, List.append_nil]
  rw [List.getElem?_append]
  have hlt : i < (List.map (fun i =>
      let b := (read_row_byte_aligned options row i).getD 32
      if is_printable_char b = true then b else 46) (List.range options.elt_width)).length := by
    simpa using h
  rw [if_pos hlt]
  rw [List.getElem?_map, List.getElem?_range h]
  rcases hb : read_row_byte_aligned options row i with _ | b
  · simp [hb, is_printable_char]
  · simp [hb]

/-- C7 witness: in the counterexample row, the absent column 1 renders as a
space by the amended rule. -/
theorem c7_ascii_cell_w :
    (write_row_ascii c7_options c7_row).flatten.getD 2 0 = 32 := by
  have h := c7_ascii_cell c7_options c7_row 1 (by decide)
  rw [h]
  decide

/-- Replaying chunks against the checked buffer from a length below the
capacity panics exactly when the total appended length reaches 256. -/
theorem run_checked_eq (cs : List (List Nat)) (len : Nat) (h : len < 256) :
    run_checked cs len =
      if 256 ≤ len + cs.flatten.length then none else some (len + cs.flatten.length) := by
  induction cs generalizing len with
  | nil => simp [run_checked, Nat.not_le.mpr h]
  | cons c cs ih =>
    rw [run_checked]
    by_cases hc : check_extension len c.length
    · rw [if_pos hc]
      have : 256 ≤ len + (c :: cs).flatten.length := by
        simp only [List.flatten_cons, List.length_append]
        have := of_decide_eq_true hc
        omega
      rw [if_pos this]
    · rw [if_neg hc]
      have hlt : len + c.length < 256 := by
        by_contra hcon
        exact hc (decide_eq_true (by omega))
      rw [ih (len + c.length) hlt]
      have hassoc : len + c.length + cs.flatten.length = len + (c :: cs).flatten.length := by
        simp only [List.flatten_cons, List.length_append]
        omega
      rw [hassoc]

/-- The ASCII field always contributes at least its two `'|'` bars. -/
theorem ascii_flatten_length (options : HexdOptions) (row : RowBuffer) :
    0 < (write_row_ascii options row).flatten.length := by
  simp [write_row_ascii]

/-- The chunk sequence of a rendered line is never empty. -/
theorem line_chunks_flatten_pos (options : HexdOptions) (hint : Option Nat)
    (row_index : Nat) (row : RowBuffer) :
    0 < (hexdump_line_chunks options hint row_index row).flatten.length := by
  have := ascii_flatten_length options row
  simp only [hexdump_line_chunks, List.flatten_append, List.length_append]
  omega

/-- The options of the C4 counterexample: 128 ungrouped hex columns. -/
def c4_options : HexdOptions :=
  { HexdOptions.default with grouping := .Ungrouped 128 .None }

/-- A full 128-byte row of zeroes. -/
def c4_row : RowBuffer :=
  { buffer := List.replicate 128 0, length := 128, row_index := 0, elt_index := 0 }

set_option maxRecDepth 4000

/-- C4 counterexample: with row width 128 (> 0) and well-formed options,
rendering one full line trips `StackBuffer::check_extension` on the 256-byte
`str_buffer` — the checked replay panics (`none`) — so rendering is not a
total operation for every row width greater than 0. -/
theorem c4_render_panics_counterexample :
    run_checked (flush_ops (hexdump_line_chunks c4_options (some 128) 0 c4_row)) 0 = none ∧
    0 < c4_options.elt_width := by decide

/-- C4 (amended): encoding and elision comparison are total, and rendering a
line cannot panic exactly as long as the composed line (newline included)
fits the 256-byte line buffer: replaying the chunk operations of any line
against the checked buffer succeeds, returning the line's length, if and
only if that length is below 256; at 256 or more it panics in
`check_extension`. -/
theorem c4_render_total_iff_fits (options : HexdOptions) (hint : Option Nat)
    (row_index : Nat) (row : RowBuffer) :
    run_checked (flush_ops (hexdump_line_chunks options hint row_index row)) 0 =
      if 256 ≤ (hexdump_line options hint row_index row).length then none
      else some (hexdump_line options hint row_index row).length := by
  rw [flush_ops, if_pos (line_chunks_flatten_pos options hint row_index row)]
  rw [run_checked_eq _ 0 (by omega)]
  have h1 : ((hexdump_line_chunks options hint row_index row) ++ [[10]]).flatten.length
      = (hexdump_line options hint row_index row).length := by
    simp [hexdump_line]
  rw [Nat.zero_add] at *
  rw [h1]

/-- The number of bytes served by `ByteSliceReader::next_n`. -/
theorem next_n_length (slice : List Nat) (idx len : Nat) :
    (ByteSliceReader.next_n slice idx len).1.length
      = (if slice.length ≤ idx then 0 else min (idx + len) slice.length - idx) := by
  rw [ByteSliceReader.next_n]
  split
  · rfl
  · simp only [List.length_take, List.length_drop]
    omega

/-- `ByteSliceReader::next_n` advances its index by the number of bytes
served. -/
theorem next_n_snd (slice : List Nat) (idx len : Nat) :
    (ByteSliceReader.next_n slice idx len).2
      = idx + (ByteSliceReader.next_n slice idx len).1.length := by
  rw [ByteSliceReader.next_n]
  split
  · simp
  · simp only [List.length_take, List.length_drop]
    omega

/-- At an `InProgress` iterator, `next` is the read followed by the post-read
processing, with no skip and no alignment shortening. -/
theorem next_at_inprogress (options : HexdOptions) (slice : List Nat)
    (it : HexdumpLineIterator) (h : it.state = .InProgress) :
    HexdumpLineIterator.next options slice it =
      next_after_read options
        (read_into_buffer options slice (next_read_len options false it.index) it).1
        (read_into_buffer options slice (next_read_len options false it.index) it).2 := by
  obtain ⟨ri, ix, st, em⟩ := it
  simp only at h
  subst h
  simp [HexdumpLineIterator.next]

/-- The post-read processing of a nonempty row always yields the row, with
the iterator unchanged except possibly for the elision candidate. -/
theorem next_after_read_pos (options : HexdOptions) (rowbuffer : RowBuffer)
    (it : HexdumpLineIterator) (h : 0 < rowbuffer.length) :
    ∃ res em',
      next_after_read options rowbuffer it
        = (some res, { it with elision_match := em' }) ∧ res.row = rowbuffer := by
  unfold next_after_read
  repeat' split
  all_goals
    first
      | omega
      | exact ⟨.Elided rowbuffer, it.elision_match, rfl, rfl⟩
      | exact ⟨.Row rowbuffer, it.elision_match, rfl, rfl⟩
      | exact ⟨.Row rowbuffer, ElisionMatch.try_match rowbuffer options, rfl, rfl⟩

/-- With a positive row width, the post-read processing of an empty row
yields nothing, whatever the pending elision candidate. -/
theorem next_after_read_zero (options : HexdOptions) (rowbuffer : RowBuffer)
    (it : HexdumpLineIterator) (hb : rowbuffer.buffer.length = 0)
    (hlen : rowbuffer.length = 0) (hW : 0 < options.elt_width) :
    (next_after_read options rowbuffer it).1 = none := by
  unfold next_after_read
  have hm : ∀ em, ElisionMatch.matches em rowbuffer options = false := by
    intro em
    rw [ElisionMatch.matches, hb]
    rw [if_neg (by omega)]
  repeat' split
  all_goals simp_all [hm]

/-- `next_read_len` for an in-progress iterator is the limit-clamped row
width. -/
theorem next_read_len_false (options : HexdOptions) (index : Nat) :
    next_read_len options false index =
      min options.elt_width
        (match options.print_range.limit with
         | some l => if index < l then l - index else 0
         | none => options.elt_width) := by
  simp [next_read_len]

/-- The total number of bytes carried by a list of iterator results. -/
def results_read_total (rs : List LineIteratorResult) : Nat :=
  (rs.map (fun r => r.row.length)).sum

/-- From any in-progress iterator state whose reader and logical cursors
agree, the bytes carried by the remaining results exactly cover the
limit-clamped remainder of the slice, and every row is at most one row width
long. -/
theorem run_read_total (options : HexdOptions) (slice : List Nat)
    (hW : 0 < options.elt_width) :
    ∀ fuel it, it.state = .InProgress → it.reader_index = it.index →
      slice.length - it.reader_index < fuel →
      results_read_total (HexdumpLineIterator.run options slice fuel it).1
        = min slice.length (options.print_range.limit.getD slice.length) - it.index
      ∧ ∀ res ∈ (HexdumpLineIterator.run options slice fuel it).1,
          res.row.length ≤ options.elt_width := by
  intro fuel
  induction fuel with
  | zero => intro it _ _ h; omega
  | succ n ih =>
    intro it hst hri hfuel
    rw [HexdumpLineIterator.run, next_at_inprogress options slice it hst]
    have hrl := next_read_len_false options it.index
    have hlen := next_n_length slice it.reader_index (next_read_len options false it.index)
    have hsnd := next_n_snd slice it.reader_index (next_read_len options false it.index)
    rcases hna : next_after_read options
        (read_into_buffer options slice (next_read_len options false it.index) it).1
        (read_into_buffer options slice (next_read_len options false it.index) it).2
      with ⟨ro, it2⟩
    by_cases hz :
        (ByteSliceReader.next_n slice it.reader_index
          (next_read_len options false it.index)).1.length = 0
    · have h1 : ro = none := by
        have h2 := next_after_read_zero options
          (read_into_buffer options slice (next_read_len options false it.index) it).1
          (read_into_buffer options slice (next_read_len options false it.index) it).2
          hz hz hW
        rw [hna] at h2
        exact h2
      subst h1
      constructor
      · show results_read_total [] = _
        simp only [results_read_total, List.map_nil, List.sum_nil]
        by_cases hL : slice.length ≤ it.reader_index
        · rcases hlim : options.print_range.limit with _ | l <;> simp [hlim] <;> omega
        · rw [if_neg hL] at hlen
          rcases hlim : options.print_range.limit with _ | l
          · rw [hlim] at hrl
            simp at hrl
            omega
          · rw [hlim] at hrl
            simp only [Option.getD_some]
            by_cases hl : it.index < l
            · simp [hl] at hrl
              omega
            · simp [hl] at hrl
              omega
      · show ∀ res ∈ ([] : List LineIteratorResult), _
        simp
    · obtain ⟨res, em', heq, hres⟩ := next_after_read_pos options
        (read_into_buffer options slice (next_read_len options false it.index) it).1
        (read_into_buffer options slice (next_read_len options false it.index) it).2
        (Nat.pos_of_ne_zero hz)
      rw [hna] at heq
      simp only [Prod.mk.injEq] at heq
      obtain ⟨h1, h2⟩ := heq
      subst h1
      subst h2
      have hL : ¬ slice.length ≤ it.reader_index := by
        intro hLL
        exact hz (by rw [hlen, if_pos hLL])
      rw [if_neg hL] at hlen
      have hz' : 0 < (ByteSliceReader.next_n slice it.reader_index
          (next_read_len options false it.index)).1.length := Nat.pos_of_ne_zero hz
      have hih := ih
        { (read_into_buffer options slice (next_read_len options false it.index) it).2 with
            elision_match := em' }
        rfl
        (by
          show (ByteSliceReader.next_n slice it.reader_index
              (next_read_len options false it.index)).2
            = it.index + (ByteSliceReader.next_n slice it.reader_index
              (next_read_len options false it.index)).1.length
          rw [hsnd, hri])
        (by
          show slice.length - (ByteSliceReader.next_n slice it.reader_index
              (next_read_len options false it.index)).2 < n
          rw [hsnd]
          omega)
      obtain ⟨ihsum, ihbound⟩ := hih
      have hidx : (read_into_buffer options slice (next_read_len options false it.index) it).2.index
          = it.index + (ByteSliceReader.next_n slice it.reader_index
              (next_read_len options false it.index)).1.length := rfl
      rw [hidx] at ihsum
      constructor
      · show results_read_total (res :: _) = _
        simp only [results_read_total, List.map_cons, List.sum_cons] at ihsum ⊢
        rw [hres]
        show (ByteSliceReader.next_n slice it.reader_index
            (next_read_len options false it.index)).1.length + _ = _
        rw [ihsum]
        rcases hlim : options.print_range.limit with _ | l
        · rw [hlim] at hrl
          simp only [Option.getD_none] at *
          simp at hrl
          omega
        · rw [hlim] at hrl
          simp only [Option.getD_some] at *
          by_cases hl : it.index < l
          · simp [hl] at hrl
            omega
          · simp [hl] at hrl
            omega
      · show ∀ r' ∈ res :: _, _
        intro r' hmem
        rcases List.mem_cons.mp hmem with h | h
        · subst h
          rw [hres]
          show (ByteSliceReader.next_n slice it.reader_index
            (next_read_len options false it.index)).1.length ≤ _
          omega
        · exact ihbound r' h

/-- With alignment disabled, the first step of a fresh iterator behaves like
a step of an in-progress iterator positioned at the skip offset. -/
theorem next_new_align_false (options : HexdOptions) (slice : List Nat)
    (h : options.align = false) :
    HexdumpLineIterator.next options slice HexdumpLineIterator.new
      = HexdumpLineIterator.next options slice
          ⟨options.print_range.skip, options.print_range.skip, .InProgress, none⟩ := by
  by_cases hs : 0 < options.print_range.skip
  · simp [HexdumpLineIterator.next, HexdumpLineIterator.new, hs, next_read_len, h]
  · have h0 : options.print_range.skip = 0 := by omega
    simp [HexdumpLineIterator.next, HexdumpLineIterator.new, hs, h0, next_read_len, h]

/-- C3: with alignment disabled, for every stream and row width `W > 0`, the
sum of the byte lengths of all rows produced by the row iterator equals
`min(L, limit) - skip` (the limit-adjusted length of the dumped sub-range)
and no produced row is longer than `W` bytes. -/
theorem c3_row_width_coverage (options : HexdOptions) (slice : List Nat)
    (halign : options.align = false) (hW : 0 < options.elt_width) :
    results_read_total
        (HexdumpLineIterator.run options slice (slice.length + 1) HexdumpLineIterator.new).1
      = min slice.length (options.print_range.limit.getD slice.length)
          - options.print_range.skip
    ∧ ∀ res ∈ (HexdumpLineIterator.run options slice (slice.length + 1)
        HexdumpLineIterator.new).1,
        res.row.length ≤ options.elt_width := by
  have heq : HexdumpLineIterator.run options slice (slice.length + 1) HexdumpLineIterator.new
      = HexdumpLineIterator.run options slice (slice.length + 1)
          ⟨options.print_range.skip, options.print_range.skip, .InProgress, none⟩ := by
    rw [HexdumpLineIterator.run, HexdumpLineIterator.run,
      next_new_align_false options slice halign]
  rw [heq]
  exact run_read_total options slice hW (slice.length + 1)
    ⟨options.print_range.skip, options.print_range.skip, .InProgress, none⟩
    rfl rfl (by omega)

/-- The options of the C3 witness: unaligned 4-byte rows. -/
def c3_options : HexdOptions :=
  { HexdOptions.default with align := false, grouping := .Ungrouped 4 .Normal }

/-- C3 witness: dumping 10 bytes with width 4 and no limit covers all 10
bytes. -/
theorem c3_row_width_coverage_w :
    results_read_total
        (HexdumpLineIterator.run c3_options (List.replicate 10 7)
          ((List.replicate 10 7 : List Nat).length + 1) HexdumpLineIterator.new).1 = 10 := by
  have h := (c3_row_width_coverage c3_options (List.replicate 10 7) rfl (by decide)).1
  simpa using h

/-- A run from an in-progress state whose reader is past the end of the
slice, or whose logical cursor has reached the limit, yields nothing. -/
theorem run_nil_of_done (options : HexdOptions) (slice : List Nat) (fuel : Nat)
    (it : HexdumpLineIterator) (hW : 0 < options.elt_width)
    (hst : it.state = .InProgress)
    (hdone : slice.length ≤ it.reader_index ∨
      ∃ l, options.print_range.limit = some l ∧ l ≤ it.index) :
    (HexdumpLineIterator.run options slice fuel it).1 = [] := by
  cases fuel with
  | zero => rfl
  | succ n =>
    rw [HexdumpLineIterator.run, next_at_inprogress options slice it hst]
    have hlen0 : (ByteSliceReader.next_n slice it.reader_index
        (next_read_len options false it.index)).1.length = 0 := by
      rw [next_n_length]
      rcases hdone with h | ⟨l, hl, hle⟩
      · rw [if_pos h]
      · have hrl0 : next_read_len options false it.index = 0 := by
          rw [next_read_len_false, hl]
          simp [Nat.not_lt.mpr hle]
        rw [hrl0]
        split
        · rfl
        · omega
    rcases hna : next_after_read options
        (read_into_buffer options slice (next_read_len options false it.index) it).1
        (read_into_buffer options slice (next_read_len options false it.index) it).2
      with ⟨ro, it2⟩
    have h1 : ro = none := by
      have h2 := next_after_read_zero options
        (read_into_buffer options slice (next_read_len options false it.index) it).1
        (read_into_buffer options slice (next_read_len options false it.index) it).2
        hlen0 hlen0 hW
      rw [hna] at h2
      exact h2
    subst h1
    rfl

/-- From an in-progress state at a row-aligned cursor, every further row
starts at a row-aligned stream offset. -/
theorem run_aligned (options : HexdOptions) (slice : List Nat)
    (hW : 0 < options.elt_width) :
    ∀ fuel it, it.state = .InProgress → it.reader_index = it.index →
      it.index % options.elt_width = 0 →
      ∀ res ∈ (HexdumpLineIterator.run options slice fuel it).1,
        res.row.elt_index % options.elt_width = 0 := by
  intro fuel
  induction fuel with
  | zero => intro it _ _ _ res h; cases h
  | succ n ih =>
    intro it hst hri hidx
    rw [HexdumpLineIterator.run, next_at_inprogress options slice it hst]
    have hrl := next_read_len_false options it.index
    have hlen := next_n_length slice it.reader_index (next_read_len options false it.index)
    have hsnd := next_n_snd slice it.reader_index (next_read_len options false it.index)
    rcases hna : next_after_read options
        (read_into_buffer options slice (next_read_len options false it.index) it).1
        (read_into_buffer options slice (next_read_len options false it.index) it).2
      with ⟨ro, it2⟩
    by_cases hz :
        (ByteSliceReader.next_n slice it.reader_index
          (next_read_len options false it.index)).1.length = 0
    · have h1 : ro = none := by
        have h2 := next_after_read_zero options
          (read_into_buffer options slice (next_read_len options false it.index) it).1
          (read_into_buffer options slice (next_read_len options false it.index) it).2
          hz hz hW
        rw [hna] at h2
        exact h2
      subst h1
      intro res h
      cases h
    · obtain ⟨res, em', heq, hres⟩ := next_after_read_pos options
        (read_into_buffer options slice (next_read_len options false it.index) it).1
        (read_into_buffer options slice (next_read_len options false it.index) it).2
        (Nat.pos_of_ne_zero hz)
      rw [hna] at heq
      simp only [Prod.mk.injEq] at heq
      obtain ⟨h1, h2⟩ := heq
      subst h1
      subst h2
      have hL : ¬ slice.length ≤ it.reader_index := by
        intro hLL
        exact hz (by rw [hlen, if_pos hLL])
      rw [if_neg hL] at hlen
      have hz' : 0 < (ByteSliceReader.next_n slice it.reader_index
          (next_read_len options false it.index)).1.length := Nat.pos_of_ne_zero hz
      intro res' hmem
      rcases List.mem_cons.mp hmem with h | h
      · subst h
        rw [hres]
        show it.index % options.elt_width = 0
        exact hidx
      · -- res' comes from the continued run
        by_cases hidx2 : (it.index + (ByteSliceReader.next_n slice it.reader_index
            (next_read_len options false it.index)).1.length) % options.elt_width = 0
        · exact ih
            { (read_into_buffer options slice (next_read_len options false it.index) it).2 with
                elision_match := em' }
            rfl
            (by
              show (ByteSliceReader.next_n slice it.reader_index
                  (next_read_len options false it.index)).2
                = it.index + (ByteSliceReader.next_n slice it.reader_index
                  (next_read_len options false it.index)).1.length
              rw [hsnd, hri])
            hidx2
            res' h
        · -- the next step must terminate: the run after this row is empty
          have hnil : (HexdumpLineIterator.run options slice n
              { (read_into_buffer options slice (next_read_len options false it.index) it).2 with
                  elision_match := em' }).1 = [] := by
            apply run_nil_of_done options slice n _ hW rfl
            show slice.length ≤ (ByteSliceReader.next_n slice it.reader_index
                (next_read_len options false it.index)).2 ∨
              ∃ l, options.print_range.limit = some l ∧
                l ≤ it.index + (ByteSliceReader.next_n slice it.reader_index
                  (next_read_len options false it.index)).1.length
            by_cases hfull : (ByteSliceReader.next_n slice it.reader_index
                (next_read_len options false it.index)).1.length
                = next_read_len options false it.index
            · -- read was complete: the limit must have clamped it below the width
              right
              rcases hlim : options.print_range.limit with _ | l
              · exfalso
                rw [hlim] at hrl
                simp at hrl
                -- rl = W, full read of W from aligned index contradicts hidx2
                apply hidx2
                rw [hfull, hrl, Nat.add_mod_right]
                exact hidx
              · refine ⟨l, rfl, ?_⟩
                rw [hlim] at hrl
                by_cases hl : it.index < l
                · simp [hl] at hrl
                  -- rl = min W (l - index); if rl = W the sum stays aligned
                  rcases Nat.lt_or_ge (l - it.index) options.elt_width with hc | hc
                  · rw [hfull, hrl]
                    omega
                  · exfalso
                    apply hidx2
                    rw [hfull, hrl]
                    have hminW : min options.elt_width (l - it.index) = options.elt_width := by
                      omega
                    rw [hminW, Nat.add_mod_right]
                    exact hidx
                · simp [hl] at hrl
                  omega
            · -- short read: the stream is exhausted
              left
              rw [hsnd]
              omega
          rw [hnil] at h
          cases h

/-- Indexing into a `take` of a `drop`. -/
theorem getD_take_drop (l : List Nat) (n e j : Nat) (h : j < e) :
    ((l.drop n).take e).getD j 0 = l.getD (n + j) 0 := by
  rw [List.getD_eq_getElem?_getD, List.getD_eq_getElem?_getD]
  rw [List.getElem?_take, if_pos h, List.getElem?_drop]


/-- The first read of an aligned dump whose sub-range is at least one row
long requests exactly the bytes up to the next row boundary. -/
theorem next_read_len_new_aligned (options : HexdOptions)
    (halign : options.align = true) (hW : 0 < options.elt_width)
    (hlim : ∀ l, options.print_range.limit = some l →
        options.print_range.skip + options.elt_width ≤ l) :
    next_read_len options true options.print_range.skip
      = options.elt_width - options.print_range.skip % options.elt_width := by
  rw [next_read_len]
  rcases hl : options.print_range.limit with _ | l
  · simp [halign, HexdRange.length, hl]
  · have hle := hlim l hl
    have h1 : options.print_range.skip < l := by omega
    have h2 : ¬ (l - options.print_range.skip < options.elt_width) := by omega
    have h3 : min options.elt_width (l - options.print_range.skip)
        = options.elt_width := by omega
    simp [halign, HexdRange.length, hl, h1, h2, h3]

/-- The first step of an aligned dump is a read of `W - skip % W` bytes from
the skip position. -/
theorem next_new_aligned (options : HexdOptions) (slice : List Nat)
    (halign : options.align = true) (hW : 0 < options.elt_width)
    (hskip0 : 0 < options.print_range.skip)
    (hlim : ∀ l, options.print_range.limit = some l →
        options.print_range.skip + options.elt_width ≤ l) :
    HexdumpLineIterator.next options slice HexdumpLineIterator.new
      = next_after_read options
          (read_into_buffer options slice
            (options.elt_width - options.print_range.skip % options.elt_width)
            ⟨options.print_range.skip, options.print_range.skip, .InProgress, none⟩).1
          (read_into_buffer options slice
            (options.elt_width - options.print_range.skip % options.elt_width)
            ⟨options.print_range.skip, options.print_range.skip, .InProgress, none⟩).2 := by
  have hrl := next_read_len_new_aligned options halign hW hlim
  simp [HexdumpLineIterator.next, HexdumpLineIterator.new, hskip0, hrl]

/-- `read_row_byte_aligned` on a right-aligned row under alignment. -/
theorem read_row_byte_aligned_ra (options : HexdOptions) (row : RowBuffer)
    (halign : options.align = true) (hra : row.elt_index ≠ row.row_index) (i : Nat) :
    read_row_byte_aligned options row i =
      if i < row.elt_index % options.elt_width ∨
          row.buffer.length + row.elt_index % options.elt_width ≤ i then none
      else some (row.buffer.getD (i - row.elt_index % options.elt_width) 0) := by
  simp [read_row_byte_aligned, RowBuffer.is_right_aligned, halign, hra]

/-- C2: with alignment enabled and a sub-range starting at an unaligned
offset (and not shorter than one row), the first row's columns are
right-shifted by `skip % W` — the first `skip % W` columns are blank
placeholders, the following ones show the stream bytes from `skip` on — and
every subsequent row begins at a `W`-aligned stream offset. -/
theorem c2_alignment_boundary (options : HexdOptions) (slice : List Nat)
    (halign : options.align = true) (hW : 0 < options.elt_width)
    (hskip : options.print_range.skip % options.elt_width ≠ 0)
    (hlim : ∀ l, options.print_range.limit = some l →
        options.print_range.skip + options.elt_width ≤ l) :
    ∀ res rest,
      (HexdumpLineIterator.run options slice (slice.length + 1) HexdumpLineIterator.new).1
        = res :: rest →
      res.row.elt_index = options.print_range.skip
      ∧ (∀ i, i < options.print_range.skip % options.elt_width →
          read_row_byte_aligned options res.row i = none)
      ∧ (∀ i, options.print_range.skip % options.elt_width ≤ i →
          i < options.print_range.skip % options.elt_width + res.row.buffer.length →
          read_row_byte_aligned options res.row i
            = some (slice.getD
                (options.print_range.skip
                  + (i - options.print_range.skip % options.elt_width)) 0))
      ∧ (∀ r' ∈ rest, r'.row.elt_index % options.elt_width = 0) := by
  intro res rest hrun
  have hskip0 : 0 < options.print_range.skip := by
    rcases Nat.eq_zero_or_pos options.print_range.skip with h | h
    · exfalso
      apply hskip
      rw [h]
      exact Nat.zero_mod _
    · exact h
  rw [HexdumpLineIterator.run,
    next_new_aligned options slice halign hW hskip0 hlim] at hrun
  obtain ⟨ro, it2, hna⟩ :
      ∃ ro it2,
        next_after_read options
          (read_into_buffer options slice
            (options.elt_width - options.print_range.skip % options.elt_width)
            ⟨options.print_range.skip, options.print_range.skip, .InProgress, none⟩).1
          (read_into_buffer options slice
            (options.elt_width - options.print_range.skip % options.elt_width)
            ⟨options.print_range.skip, options.print_range.skip, .InProgress, none⟩).2
          = (ro, it2) := ⟨_, _, rfl⟩
  rw [hna] at hrun
  have hlen := next_n_length slice options.print_range.skip
    (options.elt_width - options.print_range.skip % options.elt_width)
  have hsnd := next_n_snd slice options.print_range.skip
    (options.elt_width - options.print_range.skip % options.elt_width)
  by_cases hz : (ByteSliceReader.next_n slice options.print_range.skip
      (options.elt_width - options.print_range.skip % options.elt_width)).1.length = 0
  · have h1 : ro = none := by
      have h2 := next_after_read_zero options
        (read_into_buffer options slice
          (options.elt_width - options.print_range.skip % options.elt_width)
          ⟨options.print_range.skip, options.print_range.skip, .InProgress, none⟩).1
        (read_into_buffer options slice
          (options.elt_width - options.print_range.skip % options.elt_width)
          ⟨options.print_range.skip, options.print_range.skip, .InProgress, none⟩).2
        hz hz hW
      rw [hna] at h2
      exact h2
    subst h1
    exact absurd hrun (by simp)
  · obtain ⟨res0, em', heq, hres0⟩ := next_after_read_pos options
      (read_into_buffer options slice
        (options.elt_width - options.print_range.skip % options.elt_width)
        ⟨options.print_range.skip, options.print_range.skip, .InProgress, none⟩).1
      (read_into_buffer options slice
        (options.elt_width - options.print_range.skip % options.elt_width)
        ⟨options.print_range.skip, options.print_range.skip, .InProgress, none⟩).2
      (Nat.pos_of_ne_zero hz)
    rw [hna] at heq
    simp only [Prod.mk.injEq] at heq
    obtain ⟨h1, h2⟩ := heq
    subst h1
    subst h2
    have hrun' : res0 :: (HexdumpLineIterator.run options slice slice.length
        { (read_into_buffer options slice
            (options.elt_width - options.print_range.skip % options.elt_width)
            ⟨options.print_range.skip, options.print_range.skip, .InProgress, none⟩).2 with
            elision_match := em' }).1 = res :: rest := hrun
    simp only [List.cons.injEq] at hrun'
    obtain ⟨hres, hrest⟩ := hrun'
    subst hres
    subst hrest
    have hL : ¬ slice.length ≤ options.print_range.skip := by
      intro hLL
      exact hz (by rw [hlen, if_pos hLL])
    rw [if_neg hL] at hlen
    have hz' : 0 < (ByteSliceReader.next_n slice options.print_range.skip
        (options.elt_width - options.print_range.skip % options.elt_width)).1.length :=
      Nat.pos_of_ne_zero hz
    have hdm := Nat.div_add_mod options.print_range.skip options.elt_width
    have hmlt : options.print_range.skip % options.elt_width < options.elt_width :=
      Nat.mod_lt _ hW
    have hra : options.print_range.skip
        ≠ calculate_row_index options options.print_range.skip := by
      rw [calculate_row_index, halign]
      simp only [Bool.not_true, Bool.false_eq_true, if_false]
      have hcm : options.print_range.skip / options.elt_width * options.elt_width
          = options.elt_width * (options.print_range.skip / options.elt_width) :=
        Nat.mul_comm _ _
      rw [hcm]
      omega
    have heidx : (read_into_buffer options slice
        (options.elt_width - options.print_range.skip % options.elt_width)
        ⟨options.print_range.skip, options.print_range.skip, .InProgress, none⟩).1.elt_index
        = options.print_range.skip := rfl
    have hbufr : (read_into_buffer options slice
        (options.elt_width - options.print_range.skip % options.elt_width)
        ⟨options.print_range.skip, options.print_range.skip, .InProgress, none⟩).1.buffer
        = (ByteSliceReader.next_n slice options.print_range.skip
            (options.elt_width - options.print_range.skip % options.elt_width)).1 := rfl
    refine ⟨by rw [hres0]; exact heidx, ?_, ?_, ?_⟩
    · intro i hi
      rw [hres0]
      rw [read_row_byte_aligned_ra options _ halign hra, heidx, hbufr]
      rw [if_pos (Or.inl hi)]
    · intro i h1i h2i
      rw [hres0] at h2i ⊢
      rw [show ((read_into_buffer options slice
          (options.elt_width - options.print_range.skip % options.elt_width)
          ⟨options.print_range.skip, options.print_range.skip, .InProgress, none⟩).1.buffer.length)
          = (ByteSliceReader.next_n slice options.print_range.skip
              (options.elt_width - options.print_range.skip % options.elt_width)).1.length
        from rfl] at h2i
      rw [read_row_byte_aligned_ra options _ halign hra, heidx, hbufr]
      have hcnot : ¬ (i < options.print_range.skip % options.elt_width
          ∨ (ByteSliceReader.next_n slice options.print_range.skip
              (options.elt_width - options.print_range.skip % options.elt_width)).1.length
            + options.print_range.skip % options.elt_width ≤ i) := by
        omega
      rw [if_neg hcnot]
      have hA : (ByteSliceReader.next_n slice options.print_range.skip
          (options.elt_width - options.print_range.skip % options.elt_width)).1
          = (slice.drop options.print_range.skip).take
              (min (options.print_range.skip
                  + (options.elt_width - options.print_range.skip % options.elt_width))
                slice.length - options.print_range.skip) := by
        rw [ByteSliceReader.next_n, if_neg hL]
      congr 1
      rw [hA, getD_take_drop]
      rw [hlen] at h2i
      omega
    · intro r' hmem
      by_cases hidx2 : (options.print_range.skip
          + (ByteSliceReader.next_n slice options.print_range.skip
              (options.elt_width - options.print_range.skip % options.elt_width)).1.length)
            % options.elt_width = 0
      · exact run_aligned options slice hW slice.length _ rfl
          (by
            show (ByteSliceReader.next_n slice options.print_range.skip
                (options.elt_width - options.print_range.skip % options.elt_width)).2
              = options.print_range.skip
                + (ByteSliceReader.next_n slice options.print_range.skip
                    (options.elt_width - options.print_range.skip % options.elt_width)).1.length
            rw [hsnd])
          hidx2 r' hmem
      · exfalso
        have hmod0 : (options.print_range.skip
            + (options.elt_width - options.print_range.skip % options.elt_width))
              % options.elt_width = 0 := by
          have hstep : options.print_range.skip
              + (options.elt_width - options.print_range.skip % options.elt_width)
              = options.elt_width * (options.print_range.skip / options.elt_width + 1) := by
            rw [Nat.mul_succ]
            omega
          rw [hstep, Nat.mul_mod_right]
        by_cases hfull : (ByteSliceReader.next_n slice options.print_range.skip
            (options.elt_width - options.print_range.skip % options.elt_width)).1.length
            = options.elt_width - options.print_range.skip % options.elt_width
        · exact hidx2 (by rw [hfull]; exact hmod0)
        · have hnil : (HexdumpLineIterator.run options slice slice.length
              { (read_into_buffer options slice
                  (options.elt_width - options.print_range.skip % options.elt_width)
                  ⟨options.print_range.skip, options.print_range.skip, .InProgress, none⟩).2 with
                  elision_match := em' }).1 = [] := by
            apply run_nil_of_done options slice slice.length _ hW rfl
            left
            show slice.length ≤ (ByteSliceReader.next_n slice options.print_range.skip
                (options.elt_width - options.print_range.skip % options.elt_width)).2
            rw [hsnd]
            omega
          rw [hnil] at hmem
          cases hmem


/-- The options of the C2 witness: aligned 4-byte rows, skip 6. -/
def c2_options : HexdOptions :=
  { HexdOptions.default with grouping := .Ungrouped 4 .Normal, print_range := ⟨6, none⟩ }

/-- C2 witness: skipping 6 bytes of the 10-byte stream `0..9` with 4-byte
aligned rows blanks column 0 of the first row, shows byte 6 at column 2, and
starts the second row at the aligned offset 8. -/
theorem c2_alignment_boundary_w :
    read_row_byte_aligned c2_options
        (LineIteratorResult.row (.Row ⟨[6, 7], 2, 4, 6⟩)) 0 = none
    ∧ read_row_byte_aligned c2_options
        (LineIteratorResult.row (.Row ⟨[6, 7], 2, 4, 6⟩)) 2 = some 6
    ∧ (LineIteratorResult.row (.Row ⟨[8, 9], 2, 8, 8⟩)).elt_index
        % c2_options.elt_width = 0 := by
  have h := c2_alignment_boundary c2_options (List.range 10) rfl (by decide) (by decide)
    (fun l hl => nomatch hl) (.Row ⟨[6, 7], 2, 4, 6⟩) [.Row ⟨[8, 9], 2, 8, 8⟩] (by decide)
  refine ⟨h.2.1 0 (by decide), ?_, h.2.2.2 _ (by simp)⟩
  have h3 := h.2.2.1 2 (by decide) (by decide)
  rw [h3]
  decide

/-- The fueled chunker is fuel-independent once the fuel covers the list. -/
theorem list_chunks_go_congr (g : Nat) (hg : 0 < g) :
    ∀ n l f1 f2, List.length l ≤ n → List.length l ≤ f1 → List.length l ≤ f2 →
      list_chunks_go g f1 l = list_chunks_go g f2 l := by
  intro n
  induction n with
  | zero =>
    intro l f1 f2 hn _ _
    have : l = [] := List.eq_nil_of_length_eq_zero (by omega)
    subst this
    cases f1 <;> cases f2 <;> rfl
  | succ n ih =>
    intro l f1 f2 hn h1 h2
    cases l with
    | nil => cases f1 <;> cases f2 <;> rfl
    | cons x xs =>
      simp only [List.length_cons] at hn h1 h2
      have h1' : ∃ a, f1 = a + 1 := ⟨f1 - 1, by omega⟩
      have h2' : ∃ a2, f2 = a2 + 1 := ⟨f2 - 1, by omega⟩
      obtain ⟨a, rfl⟩ := h1'
      obtain ⟨a2, rfl⟩ := h2'
      have e1 : list_chunks_go g (a + 1) (x :: xs)
          = (x :: xs).take g :: list_chunks_go g a ((x :: xs).drop g) := rfl
      have e2 : list_chunks_go g (a2 + 1) (x :: xs)
          = (x :: xs).take g :: list_chunks_go g a2 ((x :: xs).drop g) := rfl
      rw [e1, e2]
      congr 1
      apply ih <;> simp only [List.length_drop, List.length_cons] <;> omega

/-- Unfolding one chunk of a nonempty list. -/
theorem list_chunks_cons (g : Nat) (hg : 0 < g) (l : List Nat) (hl : l ≠ []) :
    list_chunks g l = l.take g :: list_chunks g (l.drop g) := by
  obtain ⟨x, xs, rfl⟩ := List.exists_cons_of_ne_nil hl
  rw [list_chunks, list_chunks]
  have e1 : list_chunks_go g (x :: xs).length (x :: xs)
      = (x :: xs).take g :: list_chunks_go g xs.length ((x :: xs).drop g) := rfl
  rw [e1]
  congr 1
  apply list_chunks_go_congr g hg xs.length <;>
    simp only [List.length_drop, List.length_cons] <;> omega

/-- Chunking a uniform list yields uniform chunks: every chunk of
`replicate n b` is itself a replicate of `b`. -/
theorem list_chunks_replicate (g n b : Nat) (hg : 0 < g) :
    list_chunks g (List.replicate (g * n) b) = List.replicate n (List.replicate g b) := by
  induction n with
  | zero => simp [list_chunks, list_chunks_go]
  | succ n ih =>
    have hne : List.replicate (g * (n + 1)) b ≠ [] := by
      simp
      omega
    rw [list_chunks_cons g hg _ hne]
    rw [List.take_replicate, List.drop_replicate]
    have hmin : min g (g * (n + 1)) = g := by
      have : g ≤ g * (n + 1) := Nat.le_mul_of_pos_right g (by omega)
      omega
    have hsub : g * (n + 1) - g = g * n := by
      have : g * (n + 1) = g * n + g := by ring
      omega
    rw [hmin, hsub, ih]
    rfl

/-- A nonempty list no longer than the chunk size is a single chunk. -/
theorem list_chunks_single (g : Nat) (hg : 0 < g) (s : List Nat)
    (hne : s ≠ []) (hlen : s.length ≤ g) : list_chunks g s = [s] := by
  rw [list_chunks_cons g hg s hne]
  rw [List.take_of_length_le hlen]
  rw [List.drop_eq_nil_of_le (by omega)]
  rfl

/-- A full-width uniform row always qualifies as an elision candidate:
`ElisionMatch::try_match` succeeds on it and records its buffer. -/
theorem try_match_uniform (options : HexdOptions) (b ri ei : Nat)
    (hW : 0 < options.elt_width) :
    ElisionMatch.try_match
        ⟨List.replicate options.elt_width b, options.elt_width, ri, ei⟩ options
      = some (List.replicate options.elt_width b) := by
  rw [ElisionMatch.try_match]
  rw [if_neg (by simp)]
  rcases hg : options.grouping with ⟨bc, sp⟩ | ⟨gs, bs, ng, gsp⟩
  · simp only
    have hsc : (List.replicate options.elt_width b).getD 0 0 = b := by
      rw [List.getD_eq_getElem?_getD, List.getElem?_replicate, if_pos hW]
      rfl
    have hall : (List.replicate options.elt_width b).all
        (fun x => decide (x = (List.replicate options.elt_width b).getD 0 0)) = true := by
      rw [List.all_eq_true]
      intro x hx
      rw [List.eq_of_mem_replicate hx, hsc]
      simp
    rw [hall]
    rfl
  · simp only
    have hgpos : 0 < gs.element_count := by cases gs <;> simp [GroupSize.element_count]
    have hWg : options.elt_width = gs.element_count * ng := by
      rw [HexdOptions.elt_width, hg, Grouping.elt_width]
    have hng : 0 < ng := by
      rcases Nat.eq_zero_or_pos ng with h | h
      · rw [h, Nat.mul_zero] at hWg
        omega
      · exact h
    have hle : gs.element_count ≤ options.elt_width := by
      rw [hWg]
      exact Nat.le_mul_of_pos_right _ hng
    have htake : (List.replicate options.elt_width b).take gs.element_count
        = List.replicate gs.element_count b := by
      rw [List.take_replicate]
      congr 1
      omega
    rw [htake]
    rw [list_chunks_single gs.element_count hgpos _
      (by simp only [ne_eq, List.replicate_eq_nil_iff]; omega)
      (by rw [List.length_replicate])]
    simp

/-- lib.rs accepts every full-width row as an elision candidate under
`Grouped` grouping: the chunk comparison runs over the single chunk
`s = buffer[..group_size]` itself, so it is trivially satisfied. -/
theorem try_match_grouped (options : HexdOptions) (gs : GroupSize)
    (bs : Spacing) (ng : Nat) (gsp : Spacing) (r : List Nat) (l ri ei : Nat)
    (hg : options.grouping = .Grouped gs bs ng gsp)
    (hr : r.length = options.elt_width) (hW : 0 < options.elt_width) :
    ElisionMatch.try_match ⟨r, l, ri, ei⟩ options = some r := by
  rw [ElisionMatch.try_match]
  rw [if_neg (by simp [hr])]
  rw [hg]
  simp only
  have hgpos : 0 < gs.element_count := by cases gs <;> simp [GroupSize.element_count]
  have hWg : options.elt_width = gs.element_count * ng := by
    rw [HexdOptions.elt_width, hg, Grouping.elt_width]
  have hng : 0 < ng := by
    rcases Nat.eq_zero_or_pos ng with h | h
    · rw [h, Nat.mul_zero] at hWg
      omega
    · exact h
  have hle : gs.element_count ≤ r.length := by
    rw [hr, hWg]
    exact Nat.le_mul_of_pos_right _ hng
  rw [list_chunks_single gs.element_count hgpos (r.take gs.element_count)
    (by
      intro h
      have hlen := congrArg List.length h
      rw [List.length_take] at hlen
      simp only [List.length_nil] at hlen
      omega)
    (by rw [List.length_take]; omega)]
  simp

/-- A stored candidate matches a row carrying the identical full-width
buffer. -/
theorem matches_full (options : HexdOptions) (r : List Nat) (l ri ei : Nat)
    (hr : r.length = options.elt_width) :
    ElisionMatch.matches r ⟨r, l, ri, ei⟩ options = true := by
  rw [ElisionMatch.matches]
  simp [hr]

/-- The row index of offset 0 is 0. -/
theorem calculate_row_index_zero (options : HexdOptions) :
    calculate_row_index options 0 = 0 := by
  rw [calculate_row_index]
  split <;> simp

/-- The row index of a row-aligned offset is the offset itself. -/
theorem calculate_row_index_mul (options : HexdOptions) (j : Nat)
    (hW : 0 < options.elt_width) :
    calculate_row_index options (j * options.elt_width) = j * options.elt_width := by
  rw [calculate_row_index]
  split
  · rfl
  · rw [Nat.mul_div_cancel j hW]

/-- With no skip, the first `next` call proceeds directly from index 0. -/
theorem next_new_skip0 (options : HexdOptions) (slice : List Nat)
    (hpr : options.print_range = ⟨0, none⟩) :
    HexdumpLineIterator.next options slice HexdumpLineIterator.new
      = HexdumpLineIterator.next options slice ⟨0, 0, .InProgress, none⟩ := by
  simp [HexdumpLineIterator.next, HexdumpLineIterator.new, hpr, next_read_len,
    HexdRange.length]

/-- Length of `k` concatenated copies of a row. -/
theorem flatten_replicate_length (k : Nat) (r : List Nat) :
    (List.replicate k r).flatten.length = k * r.length := by
  induction k with
  | zero => simp
  | succ n ih =>
    rw [List.replicate_succ, List.flatten_cons, List.length_append, ih, Nat.succ_mul]
    omega

/-- Dropping `j` rows from the front of `k` concatenated copies of a row. -/
theorem flatten_replicate_drop (r : List Nat) :
    ∀ j k, j ≤ k →
    (List.replicate k r).flatten.drop (j * r.length)
      = (List.replicate (k - j) r).flatten := by
  intro j
  induction j with
  | zero =>
    intro k _
    rw [Nat.zero_mul, List.drop_zero, Nat.sub_zero]
  | succ m ih =>
    intro k hk
    obtain ⟨k2, rfl⟩ : ∃ k2, k = k2 + 1 := ⟨k - 1, by omega⟩
    have h1 : (m + 1) * r.length = m * r.length + r.length := Nat.succ_mul m r.length
    rw [h1, ← List.drop_drop]
    rw [ih (k2 + 1) (by omega)]
    have h3 : k2 + 1 - m = (k2 - m) + 1 := by omega
    rw [h3]
    rw [List.replicate_succ, List.flatten_cons, List.drop_left]
    have h2 : k2 + 1 - (m + 1) = k2 - m := by omega
    rw [h2]

/-- The first row of a nonempty replicated stream. -/
theorem flatten_replicate_take (r : List Nat) (m : Nat) (hm : 0 < m) :
    (List.replicate m r).flatten.take r.length = r := by
  obtain ⟨m2, rfl⟩ : ∃ m2, m = m2 + 1 := ⟨m - 1, by omega⟩
  rw [List.replicate_succ, List.flatten_cons, List.take_left]

/-- Reading one row width from row boundary `j` of a stream of `k` identical
full-width rows returns exactly the row. -/
theorem next_n_row (options : HexdOptions) (r : List Nat) (k j : Nat)
    (hr : r.length = options.elt_width) (hW : 0 < options.elt_width) (hjk : j < k) :
    ByteSliceReader.next_n (List.replicate k r).flatten (j * options.elt_width)
        options.elt_width
      = (r, (j + 1) * options.elt_width) := by
  have hlen : (List.replicate k r).flatten.length = k * options.elt_width := by
    rw [flatten_replicate_length, hr]
  have hlt : j * options.elt_width < k * options.elt_width :=
    (Nat.mul_lt_mul_right hW).mpr hjk
  rw [ByteSliceReader.next_n, if_neg (by rw [hlen]; omega)]
  rw [hlen]
  have h2 : min (j * options.elt_width + options.elt_width) (k * options.elt_width)
      - j * options.elt_width = options.elt_width := by
    have hle : (j + 1) * options.elt_width ≤ k * options.elt_width :=
      Nat.mul_le_mul_right _ hjk
    have hmul : (j + 1) * options.elt_width
        = j * options.elt_width + options.elt_width :=
      Nat.succ_mul j options.elt_width
    omega
  rw [h2]
  rw [← hr]
  rw [flatten_replicate_drop r j k (Nat.le_of_lt hjk)]
  simp only
  rw [flatten_replicate_take r (k - j) (by omega)]
  have hmul2 : (j + 1) * r.length = j * r.length + r.length := Nat.succ_mul j r.length
  rw [hmul2]

/-- Over a stream of `k` identical full-width rows that the source accepts as
an elision candidate, with autoskip on, the fresh iterator first yields row 0
in full and records it as the candidate. -/
theorem c1_first_step (options : HexdOptions) (r : List Nat) (k : Nat)
    (hauto : options.autoskip = true)
    (hpr : options.print_range = ⟨0, none⟩)
    (hW : 0 < options.elt_width)
    (hr : r.length = options.elt_width)
    (hu : ElisionMatch.try_match ⟨r, options.elt_width, 0, 0⟩ options = some r)
    (hk : 1 ≤ k) :
    HexdumpLineIterator.next options (List.replicate k r).flatten
        HexdumpLineIterator.new
      = (some (.Row ⟨r, options.elt_width, 0, 0⟩),
         ⟨options.elt_width, options.elt_width, .InProgress, some r⟩) := by
  have hnn : ByteSliceReader.next_n (List.replicate k r).flatten 0 options.elt_width
      = (r, options.elt_width) := by
    have h := next_n_row options r k 0 hr hW (by omega)
    rw [Nat.zero_mul, Nat.one_mul] at h
    exact h
  have hrl : next_read_len options false 0 = options.elt_width := by
    rw [next_read_len_false, hpr]
    simp
  have hread : read_into_buffer options (List.replicate k r).flatten
      (next_read_len options false
        (⟨0, 0, .InProgress, none⟩ : HexdumpLineIterator).index)
      ⟨0, 0, .InProgress, none⟩
      = (⟨r, options.elt_width, 0, 0⟩,
         ⟨options.elt_width, options.elt_width, .InProgress, none⟩) := by
    show read_into_buffer options (List.replicate k r).flatten
      (next_read_len options false 0) ⟨0, 0, .InProgress, none⟩ = _
    rw [hrl, read_into_buffer]
    simp only [hnn, hr, calculate_row_index_zero, Nat.zero_add]
  rw [next_new_skip0 options _ hpr, next_at_inprogress options _ _ rfl, hread]
  rw [next_after_read, hauto]
  simp only [if_true]
  rw [hu]
  rw [if_pos hW]

/-- With a full-width candidate pending, every further identical row up to
the end of the stream is yielded as `Elided`. -/
theorem c1_elided_step (options : HexdOptions) (r : List Nat) (k j : Nat)
    (hauto : options.autoskip = true)
    (hpr : options.print_range = ⟨0, none⟩)
    (hW : 0 < options.elt_width)
    (hr : r.length = options.elt_width) (hjk : j < k) :
    HexdumpLineIterator.next options (List.replicate k r).flatten
        ⟨j * options.elt_width, j * options.elt_width, .InProgress, some r⟩
      = (some (.Elided ⟨r, options.elt_width,
            j * options.elt_width, j * options.elt_width⟩),
         ⟨(j + 1) * options.elt_width, (j + 1) * options.elt_width, .InProgress,
           some r⟩) := by
  have hmul : (j + 1) * options.elt_width = j * options.elt_width + options.elt_width :=
    Nat.succ_mul j options.elt_width
  have hrl : next_read_len options false (j * options.elt_width) = options.elt_width := by
    rw [next_read_len_false, hpr]
    simp
  have hread : read_into_buffer options (List.replicate k r).flatten
      (next_read_len options false
        (⟨j * options.elt_width, j * options.elt_width, .InProgress,
          some r⟩ : HexdumpLineIterator).index)
      ⟨j * options.elt_width, j * options.elt_width, .InProgress, some r⟩
      = (⟨r, options.elt_width, j * options.elt_width, j * options.elt_width⟩,
         ⟨(j + 1) * options.elt_width, (j + 1) * options.elt_width, .InProgress,
           some r⟩) := by
    show read_into_buffer options (List.replicate k r).flatten
      (next_read_len options false (j * options.elt_width)) _ = _
    rw [hrl, read_into_buffer]
    simp only [next_n_row options r k j hr hW hjk, hr,
      calculate_row_index_mul options j hW]
    rw [Prod.mk.injEq]
    constructor
    · rfl
    · rw [HexdumpLineIterator.mk.injEq]
      refine ⟨rfl, by omega, rfl, rfl⟩
  rw [next_at_inprogress options _ _ rfl, hread]
  rw [next_after_read, hauto]
  simp only [if_true,
    matches_full options r options.elt_width (j * options.elt_width)
      (j * options.elt_width) hr]

/-- At the end of the replicated stream the iterator reads nothing, clears
the elision candidate and completes. -/
theorem c1_end_step (options : HexdOptions) (r : List Nat) (k : Nat)
    (em : Option (List Nat))
    (hauto : options.autoskip = true)
    (hpr : options.print_range = ⟨0, none⟩)
    (hW : 0 < options.elt_width)
    (hr : r.length = options.elt_width) :
    HexdumpLineIterator.next options (List.replicate k r).flatten
        ⟨k * options.elt_width, k * options.elt_width, .InProgress, em⟩
      = (none, ⟨k * options.elt_width, k * options.elt_width, .Completed, none⟩) := by
  have hrl : next_read_len options false (k * options.elt_width) = options.elt_width := by
    rw [next_read_len_false, hpr]
    simp
  have hnn : ByteSliceReader.next_n (List.replicate k r).flatten
      (k * options.elt_width) options.elt_width
      = ([], k * options.elt_width) := by
    rw [ByteSliceReader.next_n]
    rw [if_pos (by rw [flatten_replicate_length, hr])]
  have hread : read_into_buffer options (List.replicate k r).flatten
      (next_read_len options false
        (⟨k * options.elt_width, k * options.elt_width, .InProgress, em⟩ :
          HexdumpLineIterator).index)
      ⟨k * options.elt_width, k * options.elt_width, .InProgress, em⟩
      = (⟨[], 0, calculate_row_index options (k * options.elt_width),
            k * options.elt_width⟩,
         ⟨k * options.elt_width, k * options.elt_width, .InProgress, em⟩) := by
    show read_into_buffer options (List.replicate k r).flatten
      (next_read_len options false (k * options.elt_width)) _ = _
    rw [hrl, read_into_buffer]
    simp only [hnn, List.length_nil, Nat.add_zero]
  rw [next_at_inprogress options _ _ rfl, hread]
  have hmatch : ∀ em2, ElisionMatch.matches em2
      ⟨[], 0, calculate_row_index options (k * options.elt_width),
        k * options.elt_width⟩ options = false := by
    intro em2
    rw [ElisionMatch.matches]
    rw [if_neg (by simp only [List.length_nil]; omega)]
  have htry : ElisionMatch.try_match
      ⟨[], 0, calculate_row_index options (k * options.elt_width),
        k * options.elt_width⟩ options = none := by
    rw [ElisionMatch.try_match]
    rw [if_pos (by simp only [List.length_nil]; omega)]
  rw [next_after_read, hauto]
  rcases em with _ | em2
  · simp only [if_true, htry]
    rfl
  · simp only [if_true, hmatch, htry, Bool.false_eq_true, if_false]
    rfl

/-- Running the iterator from row `k - m` of the replicated stream with the
row pending as candidate yields exactly the remaining `m` rows as
`Elided`. -/
theorem c1_run_elided (options : HexdOptions) (r : List Nat) (k : Nat)
    (hauto : options.autoskip = true)
    (hpr : options.print_range = ⟨0, none⟩)
    (hW : 0 < options.elt_width)
    (hr : r.length = options.elt_width) :
    ∀ m fuel, m ≤ k → m + 1 ≤ fuel →
    HexdumpLineIterator.run options (List.replicate k r).flatten fuel
        ⟨(k - m) * options.elt_width, (k - m) * options.elt_width, .InProgress,
          some r⟩
      = ((List.range' (k - m) m).map (fun t =>
            .Elided ⟨r, options.elt_width, t * options.elt_width,
              t * options.elt_width⟩),
         ⟨k * options.elt_width, k * options.elt_width, .Completed, none⟩) := by
  intro m
  induction m with
  | zero =>
    intro fuel _ hfuel
    obtain ⟨f, rfl⟩ : ∃ f, fuel = f + 1 := ⟨fuel - 1, by omega⟩
    rw [HexdumpLineIterator.run]
    have hend := c1_end_step options r k (some r) hauto hpr hW hr
    simp only [Nat.sub_zero]
    rw [hend]
    rfl
  | succ m ih =>
    intro fuel hmk hfuel
    obtain ⟨f, rfl⟩ : ∃ f, fuel = f + 1 := ⟨fuel - 1, by omega⟩
    have hjk : k - (m + 1) < k := by omega
    have hsucc : k - (m + 1) + 1 = k - m := by omega
    rw [HexdumpLineIterator.run]
    rw [c1_elided_step options r k (k - (m + 1)) hauto hpr hW hr hjk]
    rw [hsucc]
    show (LineIteratorResult.Elided ⟨r, options.elt_width,
          (k - (m + 1)) * options.elt_width, (k - (m + 1)) * options.elt_width⟩
        :: (HexdumpLineIterator.run options (List.replicate k r).flatten f
            ⟨(k - m) * options.elt_width, (k - m) * options.elt_width, .InProgress,
              some r⟩).1,
       (HexdumpLineIterator.run options (List.replicate k r).flatten f
            ⟨(k - m) * options.elt_width, (k - m) * options.elt_width, .InProgress,
              some r⟩).2) = _
    rw [ih f (by omega) (by omega)]
    have hrange : List.range' (k - (m + 1)) (m + 1)
        = (k - (m + 1)) :: List.range' (k - m) m := by
      rw [List.range'_succ, hsucc]
    rw [hrange]
    rfl

/-- A full run over a stream of `k` identical candidate rows yields row 0 as
a `Row` followed by rows `1 .. k-1` as `Elided`. -/
theorem c1_run_full (options : HexdOptions) (r : List Nat) (k fuel : Nat)
    (hauto : options.autoskip = true)
    (hpr : options.print_range = ⟨0, none⟩)
    (hW : 0 < options.elt_width)
    (hr : r.length = options.elt_width)
    (hu : ElisionMatch.try_match ⟨r, options.elt_width, 0, 0⟩ options = some r)
    (hk : 1 ≤ k) (hfuel : k + 1 ≤ fuel) :
    HexdumpLineIterator.run options (List.replicate k r).flatten fuel
        HexdumpLineIterator.new
      = (.Row ⟨r, options.elt_width, 0, 0⟩
          :: (List.range' 1 (k - 1)).map (fun t =>
            .Elided ⟨r, options.elt_width, t * options.elt_width,
              t * options.elt_width⟩),
         ⟨k * options.elt_width, k * options.elt_width, .Completed, none⟩) := by
  obtain ⟨f, rfl⟩ : ∃ f, fuel = f + 1 := ⟨fuel - 1, by omega⟩
  rw [HexdumpLineIterator.run]
  rw [c1_first_step options r k hauto hpr hW hr hu hk]
  show (LineIteratorResult.Row ⟨r, options.elt_width, 0, 0⟩
      :: (HexdumpLineIterator.run options (List.replicate k r).flatten f
          ⟨options.elt_width, options.elt_width, .InProgress, some r⟩).1,
     (HexdumpLineIterator.run options (List.replicate k r).flatten f
          ⟨options.elt_width, options.elt_width, .InProgress, some r⟩).2) = _
  have hrun := c1_run_elided options r k hauto hpr hW hr (k - 1) f (by omega) (by omega)
  have hkk : k - (k - 1) = 1 := by omega
  rw [hkk, Nat.one_mul] at hrun
  rw [hrun]

/-- Flushing an empty `str_buffer` writes nothing. -/
theorem flush_line_empty (w : HexdumpLineWriter) (h : w.str_buffer = []) :
    flush_line w = w := by
  rcases w with ⟨o, e, sb⟩
  simp only at h
  subst h
  rfl

/-- Writing one row into an empty buffer and flushing appends exactly that
row's line to the sink. -/
theorem flush_write_row (options : HexdOptions) (hint : Option Nat)
    (idx : Nat) (row : RowBuffer) (w : HexdumpLineWriter) (h : w.str_buffer = []) :
    flush_line (hexdump_write_row options hint idx row w)
    = { out := w.out ++ [hexdump_line options hint idx row]
        elided_row := w.elided_row
        str_buffer := [] } := by
  rcases w with ⟨o, e, sb⟩
  simp only at h
  subst h
  simp only [hexdump_write_row, HexdumpLineWriter.append, flush_line, List.nil_append]
  rw [if_pos (line_chunks_flatten_pos options hint idx row)]
  rw [if_pos (by
    have := line_chunks_flatten_pos options hint idx row
    simp only [List.length_append]
    omega)]
  rfl

/-- Once an elided row is pending, further `Elided` results leave the writer
unchanged (`do_hexdump_internal` only records the first one). -/
theorem writer_loop_elided (options : HexdOptions) (hint : Option Nat)
    (rs : List LineIteratorResult)
    (hrs : ∀ r ∈ rs, ∃ row, r = .Elided row) :
    ∀ i w, w.elided_row.isSome = true → w.str_buffer = [] →
    writer_loop options hint rs i w = w := by
  induction rs with
  | nil => intro i w _ _; rfl
  | cons r rs ih =>
    intro i w hsome hbuf
    obtain ⟨row, rfl⟩ := hrs r (List.mem_cons_self r rs)
    rw [writer_loop]
    have hstep : writer_step options hint i (.Elided row) w = w := by
      show (match w.elided_row with
        | none => { w with elided_row := some (row, i) }
        | some _ => w) = w
      rcases hw : w.elided_row with _ | p
      · rw [hw] at hsome
        simp at hsome
      · rfl
    rw [hstep, flush_line_empty w hbuf]
    exact ih (fun r hr => hrs r (List.mem_cons_of_mem _ hr)) (i + 1) w hsome hbuf

/-- The post-loop epilogue with a pending elided row: an optional `*` line
(when more than one row was elided) followed by the representative row at
the final index minus one row width. -/
theorem writer_finish_some (options : HexdOptions) (hint : Option Nat)
    (final_index i : Nat) (w : HexdumpLineWriter) (p : RowBuffer × Nat)
    (h : w.elided_row = some p) :
    writer_finish options hint final_index i w
    = flush_line (hexdump_write_row options hint (final_index - options.elt_width) p.1
        (if 1 < i - p.2 then flush_line (HexdumpLineWriter.append w write_elision)
         else w)) := by
  show (match w.elided_row with
    | some p =>
      let w2 := if 1 < i - p.2 then flush_line (HexdumpLineWriter.append w write_elision)
        else w
      let row_index := final_index - options.elt_width
      flush_line (hexdump_write_row options hint row_index p.1 w2)
    | none => w) = _
  rw [h]

/-- C1: with autoskip enabled, a stream of `k >= 1` identical full-width
rows that the source's `ElisionMatch::try_match` accepts as an elision
candidate renders as first row, `*` line, last row when `3 <= k`; as both
rows with no `*` when `k = 2`; and as the single row alone when `k = 1`.
The last line is printed at index `k*W - W` from the elided representative.
The candidate hypothesis holds for every full-width row under `Grouped`
grouping (`try_match_grouped`), in particular for the spec's multi-byte
repeating patterns, and for every constant row under `Ungrouped` grouping
(`try_match_uniform`); the theorem covers every byte content, row width,
grouping, base and index option satisfying it. -/
theorem c1_autoskip_elision (options : HexdOptions) (r : List Nat) (k : Nat)
    (hauto : options.autoskip = true)
    (hpr : options.print_range = ⟨0, none⟩)
    (hW : 0 < options.elt_width)
    (hr : r.length = options.elt_width)
    (hu : ElisionMatch.try_match ⟨r, options.elt_width, 0, 0⟩ options = some r)
    (hk : 1 ≤ k) :
    do_hexdump options (List.replicate k r).flatten
      = (if 3 ≤ k then
          [hexdump_line options (some (k * options.elt_width)) 0
             ⟨r, options.elt_width, 0, 0⟩,
           [42, 10],
           hexdump_line options (some (k * options.elt_width))
             (k * options.elt_width - options.elt_width)
             ⟨r, options.elt_width, options.elt_width, options.elt_width⟩]
        else if k = 2 then
          [hexdump_line options (some (k * options.elt_width)) 0
             ⟨r, options.elt_width, 0, 0⟩,
           hexdump_line options (some (k * options.elt_width))
             (k * options.elt_width - options.elt_width)
             ⟨r, options.elt_width, options.elt_width, options.elt_width⟩]
        else
          [hexdump_line options (some (k * options.elt_width)) 0
             ⟨r, options.elt_width, 0, 0⟩]) := by
  have hfuel : k + 1 ≤ k * options.elt_width + 1 := by
    have := Nat.le_mul_of_pos_right k hW
    omega
  have hlen : (List.replicate k r).flatten.length = k * options.elt_width := by
    rw [flatten_replicate_length, hr]
  have hrun := c1_run_full options r k (k * options.elt_width + 1) hauto hpr hW hr hu
    hk hfuel
  rw [do_hexdump]
  simp only [hlen]
  rw [hrun]
  simp only [List.length_cons, List.length_map, List.length_range']
  rw [writer_loop]
  have hstep0 : writer_step options (some (k * options.elt_width)) 0
      (.Row ⟨r, options.elt_width, 0, 0⟩)
      HexdumpLineWriter.new
    = hexdump_write_row options (some (k * options.elt_width)) 0
        ⟨r, options.elt_width, 0, 0⟩
        HexdumpLineWriter.new := rfl
  rw [hstep0, flush_write_row options (some (k * options.elt_width)) 0
    ⟨r, options.elt_width, 0, 0⟩
    HexdumpLineWriter.new rfl]
  simp only [HexdumpLineWriter.new, List.nil_append]
  have hkk : k - 1 + 1 = k := by omega
  rw [hkk]
  by_cases hk3 : 3 ≤ k
  · have hsplit : List.range' 1 (k - 1) = 1 :: List.range' 2 (k - 2) := by
      have h2 : k - 1 = (k - 2) + 1 := by omega
      rw [h2, List.range'_succ]
    rw [hsplit, List.map_cons]
    simp only [Nat.one_mul]
    rw [writer_loop]
    have hstep1 : writer_step options (some (k * options.elt_width)) 1
        (.Elided ⟨r, options.elt_width, options.elt_width, options.elt_width⟩)
        ⟨[hexdump_line options (some (k * options.elt_width)) 0
            ⟨r, options.elt_width, 0, 0⟩], none, []⟩
      = ⟨[hexdump_line options (some (k * options.elt_width)) 0
            ⟨r, options.elt_width, 0, 0⟩],
         some (⟨r, options.elt_width, options.elt_width, options.elt_width⟩, 1),
         []⟩ := rfl
    rw [hstep1, flush_line_empty _ rfl]
    rw [writer_loop_elided options (some (k * options.elt_width))
      (List.map (fun t =>
        LineIteratorResult.Elided ⟨r, options.elt_width,
          t * options.elt_width, t * options.elt_width⟩) (List.range' 2 (k - 2)))
      (fun res hres => by
        obtain ⟨t, _, rfl⟩ := List.mem_map.mp hres
        exact ⟨_, rfl⟩)
      2 ⟨[hexdump_line options (some (k * options.elt_width)) 0
            ⟨r, options.elt_width, 0, 0⟩],
         some (⟨r, options.elt_width, options.elt_width, options.elt_width⟩, 1),
         []⟩ rfl rfl]
    rw [writer_finish_some options (some (k * options.elt_width))
      (k * options.elt_width) k _
      (⟨r, options.elt_width, options.elt_width, options.elt_width⟩, 1) rfl]
    rw [if_pos (show 1 < k - 1 by omega)]
    have hstar : flush_line (HexdumpLineWriter.append
        ⟨[hexdump_line options (some (k * options.elt_width)) 0
            ⟨r, options.elt_width, 0, 0⟩],
          some (⟨r, options.elt_width, options.elt_width, options.elt_width⟩, 1),
          []⟩ write_elision)
      = ⟨[hexdump_line options (some (k * options.elt_width)) 0
            ⟨r, options.elt_width, 0, 0⟩, [42, 10]],
         some (⟨r, options.elt_width, options.elt_width, options.elt_width⟩, 1),
         []⟩ := rfl
    rw [hstar, flush_write_row _ _ _ _ _ rfl]
    rw [if_pos hk3]
    rfl
  · by_cases hk2 : k = 2
    · subst hk2
      have hsplit : List.range' 1 (2 - 1) = [1] := rfl
      rw [hsplit, List.map_cons]
      simp only [Nat.one_mul]
      rw [writer_loop]
      have hstep1 : writer_step options (some (2 * options.elt_width)) 1
          (.Elided ⟨r, options.elt_width, options.elt_width, options.elt_width⟩)
          ⟨[hexdump_line options (some (2 * options.elt_width)) 0
              ⟨r, options.elt_width, 0, 0⟩], none, []⟩
        = ⟨[hexdump_line options (some (2 * options.elt_width)) 0
              ⟨r, options.elt_width, 0, 0⟩],
           some (⟨r, options.elt_width, options.elt_width, options.elt_width⟩, 1),
           []⟩ := rfl
      rw [hstep1, flush_line_empty _ rfl]
      rw [List.map_nil, writer_loop]
      rw [writer_finish_some options (some (2 * options.elt_width))
        (2 * options.elt_width) 2 _
        (⟨r, options.elt_width, options.elt_width, options.elt_width⟩, 1) rfl]
      rw [if_neg (show ¬ 1 < 2 - 1 by omega)]
      rw [flush_write_row _ _ _ _ _ rfl]
      rw [if_neg (show ¬ 3 ≤ 2 by omega), if_pos trivial]
      rfl
    · have hk1 : k = 1 := by omega
      subst hk1
      have hsplit : List.range' 1 (1 - 1) = ([] : List Nat) := rfl
      rw [hsplit, List.map_nil, writer_loop]
      rw [if_neg (show ¬ 3 ≤ 1 by omega), if_neg (show ¬ 1 = 2 by omega)]
      rfl

/-- The options of the C1 witness: default options (autoskip on) with two
groups of two bytes per row, so that the row `[0, 1, 0, 1]` is a
grouping-aware uniform row (a repeating two-byte pattern, not a constant
byte). -/
def c1_options : HexdOptions :=
  { HexdOptions.default with grouping := .Grouped .Short .Normal 2 .Normal }

/-- C1 witness: three identical `[0, 1, 0, 1]` pattern rows (k = 3) under
grouped two-byte grouping render as first row, `*`, last row. -/
theorem c1_autoskip_elision_w :
    do_hexdump c1_options (List.replicate 3 [0, 1, 0, 1]).flatten
      = (if 3 ≤ 3 then
          [hexdump_line c1_options (some (3 * c1_options.elt_width)) 0
             ⟨[0, 1, 0, 1], c1_options.elt_width, 0, 0⟩,
           [42, 10],
           hexdump_line c1_options (some (3 * c1_options.elt_width))
             (3 * c1_options.elt_width - c1_options.elt_width)
             ⟨[0, 1, 0, 1], c1_options.elt_width, c1_options.elt_width,
               c1_options.elt_width⟩]
        else if 3 = 2 then
          [hexdump_line c1_options (some (3 * c1_options.elt_width)) 0
             ⟨[0, 1, 0, 1], c1_options.elt_width, 0, 0⟩,
           hexdump_line c1_options (some (3 * c1_options.elt_width))
             (3 * c1_options.elt_width - c1_options.elt_width)
             ⟨[0, 1, 0, 1], c1_options.elt_width, c1_options.elt_width,
               c1_options.elt_width⟩]
        else
          [hexdump_line c1_options (some (3 * c1_options.elt_width)) 0
             ⟨[0, 1, 0, 1], c1_options.elt_width, 0, 0⟩]) :=
  c1_autoskip_elision c1_options [0, 1, 0, 1] 3 rfl rfl (by decide) (by decide)
    (by decide) (by decide)


/-- Writing a row into the buffer leaves the written lines unchanged. -/
theorem hexdump_write_row_out (options : HexdOptions) (hint : Option Nat)
    (idx : Nat) (row : RowBuffer) (w : HexdumpLineWriter) :
    (hexdump_write_row options hint idx row w).out = w.out := rfl

/-- `flush_line` only appends to the written lines. -/
theorem flush_line_out_mono (w : HexdumpLineWriter) :
    ∃ t, (flush_line w).out = w.out ++ t := by
  rw [flush_line]
  simp only
  split
  · split
    · exact ⟨_, rfl⟩
    · exact ⟨[], by simp⟩
  · exact ⟨[], by simp⟩

/-- One writer-loop body only appends to the written lines. -/
theorem writer_step_out_mono (options : HexdOptions) (hint : Option Nat) (i : Nat)
    (res : LineIteratorResult) (w : HexdumpLineWriter) :
    ∃ t, (writer_step options hint i res w).out = w.out ++ t := by
  rcases w with ⟨o, e, sb⟩
  cases res with
  | Elided row =>
    rcases e with _ | p
    · exact ⟨[], by rw [List.append_nil]; rfl⟩
    · exact ⟨[], by rw [List.append_nil]; rfl⟩
  | Row row =>
    rcases e with _ | p
    · exact ⟨[], by rw [List.append_nil]; rfl⟩
    · obtain ⟨t2, h2⟩ : ∃ t2, (if 1 < i - p.2 then
          flush_line (HexdumpLineWriter.append ⟨o, some p, sb⟩ write_elision)
          else ⟨o, some p, sb⟩).out = o ++ t2 := by
        split
        · obtain ⟨t1, h1⟩ := flush_line_out_mono
            (HexdumpLineWriter.append ⟨o, some p, sb⟩ write_elision)
          exact ⟨t1, h1⟩
        · exact ⟨[], by rw [List.append_nil]⟩
      obtain ⟨t3, h3⟩ := flush_line_out_mono (hexdump_write_row options hint
        (row.row_index - options.elt_width) p.1
        (if 1 < i - p.2 then
          flush_line (HexdumpLineWriter.append ⟨o, some p, sb⟩ write_elision)
         else ⟨o, some p, sb⟩))
      refine ⟨t2 ++ t3, ?_⟩
      show (hexdump_write_row options hint row.row_index row
        { flush_line (hexdump_write_row options hint
            (row.row_index - options.elt_width) p.1
            (if 1 < i - p.2 then
              flush_line (HexdumpLineWriter.append ⟨o, some p, sb⟩ write_elision)
             else ⟨o, some p, sb⟩)) with elided_row := none }).out = o ++ (t2 ++ t3)
      rw [hexdump_write_row_out]
      show (flush_line (hexdump_write_row options hint
          (row.row_index - options.elt_width) p.1
          (if 1 < i - p.2 then
            flush_line (HexdumpLineWriter.append ⟨o, some p, sb⟩ write_elision)
           else ⟨o, some p, sb⟩))).out = o ++ (t2 ++ t3)
      rw [h3, hexdump_write_row_out, h2, List.append_assoc]

/-- The writer loop only appends to the written lines. -/
theorem writer_loop_out_mono (options : HexdOptions) (hint : Option Nat) :
    ∀ (rs : List LineIteratorResult) (i : Nat) (w : HexdumpLineWriter),
    ∃ t, (writer_loop options hint rs i w).out = w.out ++ t := by
  intro rs
  induction rs with
  | nil => intro i w; exact ⟨[], by rw [List.append_nil]; rfl⟩
  | cons res rest ih =>
    intro i w
    rw [writer_loop]
    obtain ⟨t1, h1⟩ := writer_step_out_mono options hint i res w
    obtain ⟨t2, h2⟩ := flush_line_out_mono (writer_step options hint i res w)
    obtain ⟨t3, h3⟩ := ih (i + 1) (flush_line (writer_step options hint i res w))
    refine ⟨t1 ++ t2 ++ t3, ?_⟩
    rw [h3, h2, h1]
    simp [List.append_assoc]

/-- The post-loop epilogue only appends to the written lines. -/
theorem writer_finish_out_mono (options : HexdOptions) (hint : Option Nat)
    (fi i : Nat) (w : HexdumpLineWriter) :
    ∃ t, (writer_finish options hint fi i w).out = w.out ++ t := by
  have hshape : writer_finish options hint fi i w
      = (match w.elided_row with
         | some p =>
           flush_line (hexdump_write_row options hint (fi - options.elt_width) p.1
             (if 1 < i - p.2 then flush_line (HexdumpLineWriter.append w write_elision)
              else w))
         | none => w) := rfl
  rw [hshape]
  rcases w.elided_row with _ | p
  · exact ⟨[], by rw [List.append_nil]⟩
  · obtain ⟨t2, h2⟩ : ∃ t2, (if 1 < i - p.2 then
        flush_line (HexdumpLineWriter.append w write_elision) else w).out
        = w.out ++ t2 := by
      split
      · obtain ⟨t1, h1⟩ := flush_line_out_mono (HexdumpLineWriter.append w write_elision)
        exact ⟨t1, h1⟩
      · exact ⟨[], by rw [List.append_nil]⟩
    obtain ⟨t3, h3⟩ := flush_line_out_mono (hexdump_write_row options hint
      (fi - options.elt_width) p.1
      (if 1 < i - p.2 then flush_line (HexdumpLineWriter.append w write_elision) else w))
    refine ⟨t2 ++ t3, ?_⟩
    rw [h3, hexdump_write_row_out, h2, List.append_assoc]

/-- A successful fallible read agrees with the infallible one. -/
theorem read_into_buffer_f_some (options : HexdOptions) (slice : List Nat)
    (fail_at len : Nat) (it : HexdumpLineIterator) (p : RowBuffer × HexdumpLineIterator)
    (h : read_into_buffer_f options slice fail_at len it = some p) :
    read_into_buffer options slice len it = p := by
  rw [read_into_buffer_f] at h
  rcases hf : FailingReader.next_n slice fail_at it.reader_index len with _ | r
  · rw [hf] at h
    cases h
  · rw [hf] at h
    injection h with h2
    rw [FailingReader.next_n] at hf
    by_cases hfa : fail_at ≤ it.reader_index
    · rw [if_pos hfa] at hf
      cases hf
    · rw [if_neg hfa] at hf
      injection hf with hf2
      rw [read_into_buffer, hf2]
      exact h2

/-- At an `InProgress` iterator, `next_f` is the fallible read followed by
the post-read processing. -/
theorem next_f_at_inprogress (options : HexdOptions) (slice : List Nat)
    (fail_at : Nat) (it : HexdumpLineIterator) (h : it.state = .InProgress) :
    HexdumpLineIterator.next_f options slice fail_at it =
      (match read_into_buffer_f options slice fail_at
          (next_read_len options false it.index) it with
       | none => none
       | some r => some (next_after_read options r.1 r.2)) := by
  obtain ⟨ri, ix, st, em⟩ := it
  simp only at h
  subst h
  simp [HexdumpLineIterator.next_f]

/-- The shared read-and-process tail of `next_f` and `next`: a `some`
result of the fallible tail is the total tail's result. -/
theorem next_f_some_aux (options : HexdOptions) (slice : List Nat) (fail_at : Nat)
    (len : Nat) (it2 : HexdumpLineIterator)
    (x : Option LineIteratorResult × HexdumpLineIterator)
    (h : (match read_into_buffer_f options slice fail_at len it2 with
          | none => none
          | some r => some (next_after_read options r.1 r.2)) = some x) :
    next_after_read options (read_into_buffer options slice len it2).1
      (read_into_buffer options slice len it2).2 = x := by
  rcases hrf : read_into_buffer_f options slice fail_at len it2 with _ | p
  · rw [hrf] at h
    cases h
  · rw [hrf] at h
    injection h with h2
    rw [read_into_buffer_f_some options slice fail_at len it2 p hrf]
    exact h2

/-- A `some` result of the fallible iterator is the result of the total
iterator: up to the failing read the two runs agree step for step. -/
theorem next_f_some (options : HexdOptions) (slice : List Nat) (fail_at : Nat)
    (it : HexdumpLineIterator) (x : Option LineIteratorResult × HexdumpLineIterator)
    (h : HexdumpLineIterator.next_f options slice fail_at it = some x) :
    HexdumpLineIterator.next options slice it = x := by
  rw [HexdumpLineIterator.next_f] at h
  rw [HexdumpLineIterator.next]
  cases hst : it.state with
  | Completed =>
    rw [hst] at h
    have h2 : some ((none : Option LineIteratorResult), it) = some x := h
    cases h2
    rfl
  | NotStarted =>
    rw [hst] at h
    exact next_f_some_aux options slice fail_at _ _ x h
  | InProgress =>
    rw [hst] at h
    exact next_f_some_aux options slice fail_at _ _ x h

/-- When the read position is still before the failure point, the fallible
iterator agrees with the total one. -/
theorem next_f_success (options : HexdOptions) (slice : List Nat) (fail_at : Nat)
    (it : HexdumpLineIterator) (hst : it.state = .InProgress)
    (hfail : it.reader_index < fail_at) :
    HexdumpLineIterator.next_f options slice fail_at it
      = some (HexdumpLineIterator.next options slice it) := by
  rw [next_f_at_inprogress options slice fail_at it hst]
  have hrff : read_into_buffer_f options slice fail_at
      (next_read_len options false it.index) it
    = some (read_into_buffer options slice (next_read_len options false it.index) it) := by
    rw [read_into_buffer_f, FailingReader.next_n, if_neg (by omega)]
    rfl
  rw [hrff, next_at_inprogress options slice it hst]

/-- With no skip, the first `next_f` call proceeds directly from index 0. -/
theorem next_f_new_skip0 (options : HexdOptions) (slice : List Nat) (fail_at : Nat)
    (hpr : options.print_range = ⟨0, none⟩) :
    HexdumpLineIterator.next_f options slice fail_at HexdumpLineIterator.new
      = HexdumpLineIterator.next_f options slice fail_at ⟨0, 0, .InProgress, none⟩ := by
  simp [HexdumpLineIterator.next_f, HexdumpLineIterator.new, hpr, next_read_len,
    HexdRange.length]

/-- The lines written by the fallible dump are a prefix of the lines the
total dump writes from the same starting state: aborting on a read failure
never emits anything beyond (or different from) the completed lines, in
particular no partial line for the row in progress. -/
theorem do_hexdump_f_prefix (options : HexdOptions) (slice : List Nat)
    (fail_at : Nat) (hint : Option Nat) :
    ∀ fuel i it w, ∃ t,
    (writer_finish options hint
        (HexdumpLineIterator.run options slice fuel it).2.index
        (i + (HexdumpLineIterator.run options slice fuel it).1.length)
        (writer_loop options hint (HexdumpLineIterator.run options slice fuel it).1 i w)).out
      = (do_hexdump_internal_f options slice fail_at hint fuel i it w).1 ++ t := by
  intro fuel
  induction fuel with
  | zero =>
    intro i it w
    have h0 : HexdumpLineIterator.run options slice 0 it = ([], it) := rfl
    rw [h0]
    simp only [List.length_nil, Nat.add_zero]
    obtain ⟨t, ht⟩ := writer_finish_out_mono options hint it.index i w
    exact ⟨t, ht⟩
  | succ fuel ih =>
    intro i it w
    rcases hnf : HexdumpLineIterator.next_f options slice fail_at it with _ | x
    · have hf1 : (do_hexdump_internal_f options slice fail_at hint (fuel + 1) i it w).1
          = w.out := by
        rw [do_hexdump_internal_f, hnf]
      rw [hf1]
      obtain ⟨t1, h1⟩ := writer_loop_out_mono options hint
        (HexdumpLineIterator.run options slice (fuel + 1) it).1 i w
      obtain ⟨t2, h2⟩ := writer_finish_out_mono options hint
        (HexdumpLineIterator.run options slice (fuel + 1) it).2.index
        (i + (HexdumpLineIterator.run options slice (fuel + 1) it).1.length)
        (writer_loop options hint (HexdumpLineIterator.run options slice (fuel + 1) it).1 i w)
      refine ⟨t1 ++ t2, ?_⟩
      rw [h2, h1, List.append_assoc]
    · have hx := next_f_some options slice fail_at it x hnf
      rcases x with ⟨ro, it2⟩
      cases ro with
      | none =>
        have hf1 : do_hexdump_internal_f options slice fail_at hint (fuel + 1) i it w
            = ((writer_finish options hint it2.index i w).out, false) := by
          rw [do_hexdump_internal_f, hnf]
        rw [hf1]
        have hrun : HexdumpLineIterator.run options slice (fuel + 1) it = ([], it2) := by
          rw [HexdumpLineIterator.run, hx]
        rw [hrun]
        simp only [List.length_nil, Nat.add_zero]
        exact ⟨[], by rw [List.append_nil]; rfl⟩
      | some res =>
        have hf1 : do_hexdump_internal_f options slice fail_at hint (fuel + 1) i it w
            = do_hexdump_internal_f options slice fail_at hint fuel (i + 1) it2
                (flush_line (writer_step options hint i res w)) := by
          rw [do_hexdump_internal_f, hnf]
        rw [hf1]
        have hrun : HexdumpLineIterator.run options slice (fuel + 1) it
            = (res :: (HexdumpLineIterator.run options slice fuel it2).1,
               (HexdumpLineIterator.run options slice fuel it2).2) := by
          rw [HexdumpLineIterator.run, hx]
        rw [hrun]
        simp only [List.length_cons]
        have harith : i + ((HexdumpLineIterator.run options slice fuel it2).1.length + 1)
            = (i + 1) + (HexdumpLineIterator.run options slice fuel it2).1.length := by
          omega
        rw [harith]
        rw [writer_loop]
        exact ih (i + 1) it2 (flush_line (writer_step options hint i res w))

/-- From any in-progress aligned-cursor state, if the failure point lies
within the stream the fallible dump reaches the failing read and panics. -/
theorem internal_f_panics (options : HexdOptions) (slice : List Nat)
    (fail_at : Nat) (hint : Option Nat)
    (hW : 0 < options.elt_width)
    (hpr : options.print_range = ⟨0, none⟩)
    (hfa : fail_at ≤ slice.length) :
    ∀ fuel i it w, it.state = .InProgress → it.reader_index = it.index →
      slice.length - it.index < fuel →
      (do_hexdump_internal_f options slice fail_at hint fuel i it w).2 = true := by
  intro fuel
  induction fuel with
  | zero =>
    intro i it w _ _ hlt
    exact (Nat.not_lt_zero _ hlt).elim
  | succ fuel ih =>
    intro i it w hst hri hlt
    by_cases hfail : fail_at ≤ it.reader_index
    · have hnf : HexdumpLineIterator.next_f options slice fail_at it = none := by
        rw [next_f_at_inprogress options slice fail_at it hst]
        rw [read_into_buffer_f, FailingReader.next_n, if_pos hfail]
      rw [do_hexdump_internal_f, hnf]
    · push_neg at hfail
      have hnf := next_f_success options slice fail_at it hst hfail
      have hrl : next_read_len options false it.index = options.elt_width := by
        rw [next_read_len_false, hpr]
        simp
      have hridx : it.reader_index < slice.length := by omega
      have hpos : 0 < (ByteSliceReader.next_n slice it.reader_index
          (next_read_len options false it.index)).1.length := by
        rw [next_n_length, if_neg (by omega), hrl]
        omega
      obtain ⟨res, em2, heq, hres⟩ := next_after_read_pos options
        (read_into_buffer options slice (next_read_len options false it.index) it).1
        (read_into_buffer options slice (next_read_len options false it.index) it).2
        (by
          show 0 < (ByteSliceReader.next_n slice it.reader_index
            (next_read_len options false it.index)).1.length
          exact hpos)
      rw [do_hexdump_internal_f, hnf]
      rw [next_at_inprogress options slice it hst, heq]
      exact ih (i + 1)
        { (read_into_buffer options slice (next_read_len options false it.index) it).2
            with elision_match := em2 }
        (flush_line (writer_step options hint i res w))
        rfl
        (by
          show (ByteSliceReader.next_n slice it.reader_index
              (next_read_len options false it.index)).2
            = it.index + (ByteSliceReader.next_n slice it.reader_index
              (next_read_len options false it.index)).1.length
          rw [next_n_snd, hri])
        (by
          show slice.length - (it.index + (ByteSliceReader.next_n slice it.reader_index
            (next_read_len options false it.index)).1.length) < fuel
          omega)

/-- A failure point within the stream is always reached: the dump panics. -/
theorem do_hexdump_f_panics (options : HexdOptions) (slice : List Nat) (fail_at : Nat)
    (hW : 0 < options.elt_width)
    (hpr : options.print_range = ⟨0, none⟩)
    (hfa : fail_at ≤ slice.length) :
    (do_hexdump_f options slice fail_at).2 = true := by
  rw [do_hexdump_f]
  rcases Nat.eq_zero_or_pos fail_at with h0 | h0
  · have hnf : HexdumpLineIterator.next_f options slice fail_at
        ⟨0, 0, .InProgress, none⟩ = none := by
      rw [next_f_at_inprogress options slice fail_at _ rfl]
      rw [read_into_buffer_f, FailingReader.next_n, if_pos (by omega)]
    rw [do_hexdump_internal_f, next_f_new_skip0 options slice fail_at hpr, hnf]
  · have hL : 0 < slice.length := by omega
    have hnf := next_f_success options slice fail_at ⟨0, 0, .InProgress, none⟩ rfl h0
    have hrl : next_read_len options false 0 = options.elt_width := by
      rw [next_read_len_false, hpr]
      simp
    have hpos : 0 < (ByteSliceReader.next_n slice 0
        (next_read_len options false 0)).1.length := by
      rw [next_n_length, if_neg (by omega), hrl]
      omega
    obtain ⟨res, em2, heq, hres⟩ := next_after_read_pos options
      (read_into_buffer options slice (next_read_len options false 0)
        ⟨0, 0, .InProgress, none⟩).1
      (read_into_buffer options slice (next_read_len options false 0)
        ⟨0, 0, .InProgress, none⟩).2
      (by
        show 0 < (ByteSliceReader.next_n slice 0
          (next_read_len options false 0)).1.length
        exact hpos)
    rw [do_hexdump_internal_f, next_f_new_skip0 options slice fail_at hpr, hnf]
    rw [next_at_inprogress options slice _ rfl, heq]
    exact internal_f_panics options slice fail_at (some slice.length) hW hpr hfa
      slice.length (0 + 1)
      { (read_into_buffer options slice (next_read_len options false 0)
          ⟨0, 0, .InProgress, none⟩).2 with elision_match := em2 }
      (flush_line (writer_step options (some slice.length) 0 res HexdumpLineWriter.new))
      rfl
      (by
        show (ByteSliceReader.next_n slice 0 (next_read_len options false 0)).2
          = (0 : Nat) + (ByteSliceReader.next_n slice 0
            (next_read_len options false 0)).1.length
        rw [next_n_snd])
      (by
        show slice.length - ((0 : Nat) + (ByteSliceReader.next_n slice 0
          (next_read_len options false 0)).1.length) < slice.length
        omega)

/-- C5 (amended): whenever the byte source's read fails at any position
within the dumped stream — including mid-dump, after rows have already been
written — the dump aborts by panicking on the `unwrap` of the read result
(flag `true`): the read is not retried, the error value is not returned to
the caller (the model has no error channel, mirroring the source's
signature), and the lines written before the abort are a prefix of the
complete dump's lines — in particular no partial line is emitted for the
row whose read failed. -/
theorem c5_read_failure_aborts (options : HexdOptions) (slice : List Nat)
    (fail_at : Nat)
    (hW : 0 < options.elt_width)
    (hpr : options.print_range = ⟨0, none⟩)
    (hfa : fail_at ≤ slice.length) :
    (do_hexdump_f options slice fail_at).2 = true ∧
    ∃ t, do_hexdump options slice = (do_hexdump_f options slice fail_at).1 ++ t := by
  refine ⟨do_hexdump_f_panics options slice fail_at hW hpr hfa, ?_⟩
  obtain ⟨t, ht⟩ := do_hexdump_f_prefix options slice fail_at (some slice.length)
    (slice.length + 1) 0 HexdumpLineIterator.new HexdumpLineWriter.new
  simp only [Nat.zero_add] at ht
  exact ⟨t, ht⟩

/-- C5 witness: a source over 40 bytes failing from position 17 onwards
aborts the default dump mid-stream (after the first full row) with the flag
set and only completed lines written. -/
theorem c5_read_failure_aborts_w :
    (do_hexdump_f HexdOptions.default (List.replicate 40 0) 17).2 = true ∧
    ∃ t, do_hexdump HexdOptions.default (List.replicate 40 0)
      = (do_hexdump_f HexdOptions.default (List.replicate 40 0) 17).1 ++ t :=
  c5_read_failure_aborts HexdOptions.default (List.replicate 40 0) 17
    (by decide) rfl (by simp)
